import Mathlib

/-!
A verification development for `notes.cpp` of notes_tutor.

The program is an ear-training drill.  It samples a random MIDI pitch
(`get_random_note`), renders its name (`get_note_name`), and then polls a MIDI
input until a Note-On message for the configured channel is read, scoring the
pressed key against the sampled one (the loop of `main`).

Conventions of the embedding:

* `unsigned int` values are natural numbers below `2 ^ 32`; subtraction and
  increment wrap explicitly (`sub32`, `inc32`).
* The pseudo random generator is a stream `draws : Nat → Nat` together with the
  index of the next unused draw.
* Loops that may spin forever take a fuel argument, counted in evaluations of
  the loop condition, and return `none` when the fuel runs out.
-/

namespace NotesTutor

/-! ## Constants -/

def DIFFICULTY_EASY : Nat := 1

def DIFFICULTY_MED : Nat := 2

def DIFFICULTY_HARD : Nat := 3

def CHANNEL_1_NOTE_ON : Nat := 0x90

/-- Number of values of an `unsigned int`. -/
def U32 : Nat := 2 ^ 32

/-- Number of values of a `uint64_t`. -/
def U64 : Nat := 2 ^ 64

/-- Subtraction of `unsigned int` values: `a - b` wraps modulo `2 ^ 32`. -/
def sub32 (a b : Nat) : Nat := (a % U32 + U32 - b % U32) % U32

/-- Pre-increment of an `unsigned int`: `++a` wraps modulo `2 ^ 32`. -/
def inc32 (a : Nat) : Nat := (a + 1) % U32

/-- Conversion of a C++ `bool` to `int`, as done for the operands of `|`. -/
def b2i (b : Bool) : Nat := if b then 1 else 0

/-! ## The sampler: `get_random_note` -/

/-- The condition of the rejection loop, with the operators of the source:
`note_letter == 1 || note_letter == 3 | note_letter == 6 | note_letter == 8 | note_letter == 10`.
The comparisons bind tighter than `|`, which binds tighter than `||`. -/
def black_cond (note_letter : Nat) : Bool :=
  note_letter == 1 ||
    ((((b2i (note_letter == 3) ||| b2i (note_letter == 6)) ||| b2i (note_letter == 8))
      ||| b2i (note_letter == 10)) != 0)

/-- The loop `while(black_cond note_letter) { note = dist(gen); note_letter = (note - 12) % 12; }`.
Arguments: fuel, index of the next draw, `note`, `note_letter`.  The result is
the final `note` and the index of the next unused draw. -/
def reject_loop (draws : Nat → Nat) : Nat → Nat → Nat → Nat → Option (Nat × Nat)
  | 0, _, _, _ => none
  | fuel + 1, ix, note, note_letter =>
    if black_cond note_letter then
      reject_loop draws fuel (ix + 1) (draws ix) (sub32 (draws ix) 12 % 12)
    else
      some (note, ix)

/-- The function `get_random_note(difficulty)`, reading its random numbers from
`draws` starting at index `ix`.  Returns the note and the next unused index. -/
def get_random_note (draws : Nat → Nat) (ix fuel difficulty : Nat) : Option (Nat × Nat) :=
  let note := draws ix
  let looped :=
    if difficulty ≤ DIFFICULTY_MED then
      reject_loop draws fuel (ix + 1) note (sub32 note 12 % 12)
    else
      some (note, ix + 1)
  match looped with
  | none => none
  | some (note, ix1) =>
    if difficulty = DIFFICULTY_EASY then
      some ((sub32 note 12 % 12 + 12 + 12 * 4) % U32, ix1)
    else
      some (note, ix1)

/-- Every draw of the generator lies in the range of `dist{21, 108}`. -/
def DrawsInRange (draws : Nat → Nat) : Prop := ∀ i, 21 ≤ draws i ∧ draws i ≤ 108

/-! ## The namer: `get_note_name` -/

/-- The table `note_names_english[12]`, written as its lower and upper half. -/
def note_names_english : List String :=
  ["C", "C#", "D", "D#", "E", "F"] ++ ["F#", "G", "G#", "A", "A#", "B"]

/-- The table `note_names_solfege[12]`, written as its lower and upper half. -/
def note_names_solfege : List String :=
  ["Do", "Do#", "Re", "Re#", "Mi", "Fa"] ++ ["Fa#", "Sol", "Sol#", "La", "La#", "Ti"]

/-- The local `wchar_t subscript = 0x2080 + ((note - 12) / 12)` of `get_note_name`. -/
def subscript (note : Nat) : Char := Char.ofNat ((0x2080 + sub32 note 12 / 12) % U32)

/-- The function `get_note_name(note, notation)`.  The wide string result is a
`String`; the index `(note - 12) % 12` is always below 12. -/
def get_note_name (note : Nat) (notation_name : String) : String :=
  if notation_name = "solfege" then
    note_names_solfege.getD (sub32 note 12 % 12) "" ++ String.singleton (subscript note)
  else
    note_names_english.getD (sub32 note 12 % 12) "" ++ String.singleton (subscript note)

/-! ## The session: the loop of `main` -/

/-- The command line flags read by the session loop.  `FLAGS_channel` is a
`uint64_t`; `FLAGS_forward` decides whether `midi_out` is non-null. -/
structure Flags where
  FLAGS_difficulty : String
  FLAGS_forward : Bool
  FLAGS_channel : Nat

/-- What the outside world does during a run: the random draws, the MIDI
messages that arrive (those listed at `k` reach the input queue just before
call number `k` of `getMessage`, counting from 0, and after the call before
it), and the
moment of the interrupt: with `cancelAt = some c` the reads of `done` numbered
`c` and later (counting from 0) see `true`, with `none` the flag is never set. -/
structure Env where
  draws : Nat → Nat
  arrivals : Nat → List (List Nat)
  cancelAt : Option Nat

/-- The variables of `main` that the loop changes, the input queue of
`midi_in`, the messages sent to `midi_out`, and the numbers of draws,
`getMessage` calls and reads of `done` made so far. -/
structure State where
  num_asked : Nat
  num_correct : Nat
  queue : List (List Nat)
  sent : List (List Nat)
  drawIx : Nat
  msgIx : Nat
  doneIx : Nat

/-- The state at line 199: both counters are zero and nothing has happened. -/
def initial_state : State :=
  { num_asked := 0, num_correct := 0, queue := [], sent := [], drawIx := 0, msgIx := 0,
    doneIx := 0 }

/-- The mapping of `FLAGS_difficulty` to `difficulty` (lines 192 to 197). -/
def difficulty_of (flag : String) : Nat :=
  if flag = "med" then DIFFICULTY_MED
  else if flag = "hard" then DIFFICULTY_HARD
  else DIFFICULTY_EASY

/-- Conversion of an `unsigned int` to `int` (two's complement). -/
def to_int32 (n : Nat) : Int :=
  if n % U32 < 2 ^ 31 then ((n % U32 : Nat) : Int) else ((n % U32 : Nat) : Int) - (2 : Int) ^ 32

/-- One read of the volatile flag `done`. -/
def read_done (env : Env) (s : State) : Bool × State :=
  (match env.cancelAt with
    | some c => decide (c ≤ s.doneIx)
    | none => false,
   { s with doneIx := s.doneIx + 1 })

/-- One call `midi_in->getMessage(&message)`: the oldest queued message is
removed and returned; with an empty queue the message is empty. -/
def getMessage (env : Env) (s : State) : List Nat × State :=
  match s.queue ++ env.arrivals s.msgIx with
  | [] => ([], { s with queue := [], msgIx := s.msgIx + 1 })
  | m :: rest => (m, { s with queue := rest, msgIx := s.msgIx + 1 })

/-- The call `midi_out->sendMessage(&message)` guarded by `midi_out != nullptr`. -/
def sendMessage (fl : Flags) (message : List Nat) (s : State) : State :=
  if fl.FLAGS_forward then { s with sent := s.sent ++ [message] } else s

/-- The value `CHANNEL_1_NOTE_ON + (FLAGS_channel - 1)`, computed in `uint64_t`. -/
def expected_status (channel : Nat) : Nat :=
  (CHANNEL_1_NOTE_ON + (channel % U64 + U64 - 1) % U64) % U64

/-- Lines 223 to 230: the new value of `read_note` after `message` was read. -/
def classify (channel : Nat) (message : List Nat) (read_note : Int) : Int :=
  if message.length = 3 then
    if message.getD 0 0 = expected_status channel ∧ message.getD 2 0 ≠ 0 then
      ((message.getD 1 0 : Nat) : Int)
    else read_note
  else read_note

/-- The body of the polling loop (lines 215 to 231). -/
def poll_body (fl : Flags) (env : Env) (s : State) (read_note : Int) : State × Int :=
  let r := getMessage env s
  if r.1.length ≠ 0 then
    (sendMessage fl r.1 r.2, classify fl.FLAGS_channel r.1 read_note)
  else
    (r.2, read_note)

/-- The loop `while(!read_note && !done) { ... }`.  The flag `done` is read only
when `read_note` is zero. -/
def poll_loop (fl : Flags) (env : Env) : Nat → State → Int → Option (State × Int)
  | 0, _, _ => none
  | fuel + 1, s, read_note =>
    if read_note ≠ 0 then some (s, read_note)
    else
      let d := read_done env s
      if d.1 then some (d.2, read_note)
      else
        let b := poll_body fl env d.2 read_note
        poll_loop fl env fuel b.1 b.2

/-- Lines 203 to 232 of a round: sample the target, discard one pending
message, poll.  Returns the state, `random_note` and `read_note`. -/
def round_listen (fl : Flags) (env : Env) (fuel : Nat) (s : State) :
    Option (State × Int × Int) :=
  match get_random_note env.draws s.drawIx fuel (difficulty_of fl.FLAGS_difficulty) with
  | none => none
  | some (note, ix) =>
    let random_note := to_int32 note
    let drained := getMessage env { s with drawIx := ix }
    match poll_loop fl env fuel drained.2 0 with
    | none => none
    | some (s1, read_note) => some (s1, random_note, read_note)

/-- Lines 234 to 244: the scoring of a round, after `done` was read. -/
def score (s : State) (done : Bool) (read_note random_note : Int) : State :=
  if !done then
    let s1 := { s with num_asked := inc32 s.num_asked }
    if read_note = random_note then { s1 with num_correct := inc32 s1.num_correct } else s1
  else s

/-- The body of the loop `while(!done)` (lines 203 to 244). -/
def round_body (fl : Flags) (env : Env) (fuel : Nat) (s : State) : Option State :=
  match round_listen fl env fuel s with
  | none => none
  | some (s1, random_note, read_note) =>
    let d := read_done env s1
    some (score d.2 d.1 read_note random_note)

/-- The loop `while(!done) { ... }` of `main` (lines 202 to 245). -/
def main_loop (fl : Flags) (env : Env) : Nat → State → Option State
  | 0, _ => none
  | fuel + 1, s =>
    let d := read_done env s
    if d.1 then some d.2
    else
      match round_body fl env fuel d.2 with
      | none => none
      | some s1 => main_loop fl env fuel s1

/-- The operands of the division printed at line 249,
`static_cast<double>(100 * num_correct) / num_asked`: the product is an
`unsigned int` product, converted to `double` before dividing. -/
structure Division where
  numerator : Nat
  denominator : Nat
  deriving DecidableEq

/-- The division evaluated by the accuracy report (line 249).  The source
evaluates it on every path that leaves the loop. -/
def accuracy_division (s : State) : Division :=
  { numerator := (100 * s.num_correct) % U32, denominator := s.num_asked }

/-! ## Scripts and sample data used in the statements below -/

/-- A stream of draws used to exercise the sampler: a C sharp first, then
middle C for ever. -/
def sample_draws : Nat → Nat := fun i => if i = 0 then 61 else 60

/-- Flags of a session on channel 1 at difficulty Hard without forwarding. -/
def channel_one : Flags :=
  { FLAGS_difficulty := "hard", FLAGS_forward := false, FLAGS_channel := 1 }

/-- An environment in which a Note-On for pitch 0 and then one for pitch 62 are
queued, both with velocity 64, and the interrupt never comes. -/
def zero_pitch_env : Env :=
  { draws := fun _ => 60,
    arrivals := fun k => if k = 0 then [[0x90, 0, 64], [0x90, 62, 64]] else [],
    cancelAt := none }

/-- An environment in which every poll finds a Note-On with velocity 0. -/
def zero_velocity_env : Env :=
  { draws := fun _ => 60, arrivals := fun _ => [[0x90, 60, 0]], cancelAt := none }

/-- An environment in which every poll finds a Note-On of channel 2. -/
def wrong_channel_env : Env :=
  { draws := fun _ => 60, arrivals := fun _ => [[0x91, 60, 64]], cancelAt := none }

/-- The scripted run of the end-to-end test: the first draw is `t`, nothing is
queued at the drain read, the first poll finds `[0x90, 60, 0]`, the second poll
finds `[0x90, t, 64]`, nothing arrives afterwards, and the interrupt is seen
from the read of `done` numbered `c` on. -/
def Script (env : Env) (t c : Nat) : Prop :=
  env.draws 0 = t ∧ env.arrivals 0 = [] ∧ env.arrivals 1 = [[0x90, 60, 0]] ∧
    env.arrivals 2 = [[0x90, t, 64]] ∧ (∀ k, 3 ≤ k → env.arrivals k = []) ∧
    env.cancelAt = some c

/-- The scripted run for target 67 with the interrupt at the read numbered 6. -/
def script_env : Env :=
  { draws := fun _ => 67,
    arrivals := fun k =>
      if k = 1 then [[0x90, 60, 0]] else if k = 2 then [[0x90, 67, 64]] else [],
    cancelAt := some 6 }

/-- An environment in which the key for pitch 60 is pressed once. -/
def press_env : Env :=
  { draws := fun _ => 60,
    arrivals := fun k => if k = 1 then [[0x90, 60, 64]] else [],
    cancelAt := none }

/-- The state of a session whose counter `num_asked` has reached its maximum. -/
def asked_at_max : State := { initial_state with num_asked := 4294967295 }

/-- An environment in which the press of the target 67 is read and the
interrupt is seen at the read of `done` numbered 2, the one at line 234 of a
round started from `initial_state`. -/
def late_cancel_env : Env :=
  { draws := fun _ => 67,
    arrivals := fun k =>
      if k = 1 then [[0x90, 60, 0]] else if k = 2 then [[0x90, 67, 64]] else [],
    cancelAt := some 2 }

/-- An environment in which middle C is always the target, nothing arrives and
the interrupt never comes. -/
def quiet_env : Env :=
  { draws := fun _ => 60, arrivals := fun _ => [], cancelAt := none }

/-- A state at the start of a round in which two messages are already queued:
a Note-Off for pitch 60 and a Note-On for pitch 62. -/
def stale_queue_state : State :=
  { initial_state with queue := [[0x80, 60, 0], [0x90, 62, 64]] }

/-- The non-empty messages read by the iterations of the polling loop, in the
order in which `getMessage` returned them. -/
def poll_reads (fl : Flags) (env : Env) : Nat → State → Int → List (List Nat)
  | 0, _, _ => []
  | fuel + 1, s, read_note =>
    if read_note ≠ 0 then []
    else
      let d := read_done env s
      if d.1 then []
      else
        let m := (getMessage env d.2).1
        let b := poll_body fl env d.2 read_note
        (if m.length ≠ 0 then [m] else []) ++ poll_reads fl env fuel b.1 b.2

/-- The non-empty messages read by the polling loop of one round; the message
read by the drain (line 211) is not among them. -/
def round_reads (fl : Flags) (env : Env) (fuel : Nat) (s : State) : List (List Nat) :=
  match get_random_note env.draws s.drawIx fuel (difficulty_of fl.FLAGS_difficulty) with
  | none => []
  | some (_, ix) => poll_reads fl env fuel (getMessage env { s with drawIx := ix }).2 0

/-- The non-empty messages read by the polling loops of all rounds of a run of
`main_loop`, in order. -/
def main_reads (fl : Flags) (env : Env) : Nat → State → List (List Nat)
  | 0, _ => []
  | fuel + 1, s =>
    let d := read_done env s
    if d.1 then []
    else
      match round_body fl env fuel d.2 with
      | none => []
      | some s1 => round_reads fl env fuel d.2 ++ main_reads fl env fuel s1

/-- Flags of a session on channel 1 at difficulty Hard with forwarding. -/
def forward_one : Flags :=
  { FLAGS_difficulty := "hard", FLAGS_forward := true, FLAGS_channel := 1 }

/-- An environment in which a Note-Off is queued when the first round drains,
the target 60 is pressed at the first poll, and the interrupt is seen when the
second round would start. -/
def drain_env : Env :=
  { draws := fun _ => 60,
    arrivals := fun k =>
      if k = 0 then [[0x80, 60, 0]] else if k = 1 then [[0x90, 60, 64]] else [],
    cancelAt := some 3 }

/-- What a device prompt of `main` leads to: the run ends with an exit code, or
`openPort` is called with an index. -/
inductive Selection where
  | exit (code : Nat)
  | openPort (index : Nat)
  deriving DecidableEq

/-- Lines 147 to 151 for the input device and, with the same text, lines 179 to
183 for the output device: the check `port > num_ports` of the number entered
by the user, and the call `openPort(port - 1)` in `unsigned int`. -/
def select_port (num_ports port : Nat) : Selection :=
  if port > num_ports then Selection.exit 1 else Selection.openPort (sub32 port 1)

/-- The device prompts of `main` (lines 130 to 184) in order: the input prompt
and, when forwarding is on and the input port was opened, the output prompt. -/
def device_setup (forward : Bool) (in_ports in_port out_ports out_port : Nat) :
    List Selection :=
  match select_port in_ports in_port with
  | Selection.exit code => [Selection.exit code]
  | Selection.openPort i =>
    if forward then [Selection.openPort i, select_port out_ports out_port]
    else [Selection.openPort i]

/-- The label of a pitch class in English letters, as the specification lists
them. -/
def spec_label_english : Nat → String
  | 0 => "C"
  | 1 => "C#"
  | 2 => "D"
  | 3 => "D#"
  | 4 => "E"
  | 5 => "F"
  | 6 => "F#"
  | 7 => "G"
  | 8 => "G#"
  | 9 => "A"
  | 10 => "A#"
  | _ => "B"

/-- The label of a pitch class in solfege syllables, as the specification lists
them. -/
def spec_label_solfege : Nat → String
  | 0 => "Do"
  | 1 => "Do#"
  | 2 => "Re"
  | 3 => "Re#"
  | 4 => "Mi"
  | 5 => "Fa"
  | 6 => "Fa#"
  | 7 => "Sol"
  | 8 => "Sol#"
  | 9 => "La"
  | 10 => "La#"
  | _ => "Ti"

/-- The name of a pitch as the specification describes it: the label of the
pitch class `(pitch - 12) mod 12` in the requested table, English unless the
notation is solfege, followed by the subscript digit of the octave index
`(pitch - 12) / 12`. -/
def spec_pitch_name (pitch : Nat) (solfege : Bool) : String :=
  (if solfege then spec_label_solfege ((pitch - 12) % 12)
    else spec_label_english ((pitch - 12) % 12)) ++
    String.singleton (Char.ofNat (0x2080 + (pitch - 12) / 12))

/-- Flags of a session on channel 0, a value the program accepts. -/
def channel_zero : Flags :=
  { FLAGS_difficulty := "hard", FLAGS_forward := false, FLAGS_channel := 0 }

/-- An environment in which a Note-Off of channel 16 for pitch 60 arrives. -/
def note_off_env : Env :=
  { draws := fun _ => 60, arrivals := fun _ => [[0x8F, 60, 64]], cancelAt := none }

/-- The pitch pressed in the round that polls with call number `k` of
`getMessage`: the target 60, except that with `wrong_first` the press of the
first round is 61. -/
def pressed_pitch (wrong_first : Bool) (k : Nat) : Nat :=
  if wrong_first = true ∧ k = 1 then 61 else 60

/-- A run of `rounds` rounds with target 60: in every round the drain finds
nothing and the first poll finds a Note-On with velocity 64 for
`pressed_pitch`; each round reads `done` three times, and the interrupt is seen
by the read that would start round number `rounds`. -/
def round_trip_env (wrong_first : Bool) (rounds : Nat) : Env :=
  { draws := fun _ => 60,
    arrivals := fun k => if k % 2 = 1 then [[0x90, pressed_pitch wrong_first k, 64]] else [],
    cancelAt := some (3 * rounds) }

/-- The number of correct answers after `r` rounds of `round_trip_env`: all of
them, or all but the first with `wrong_first`. -/
def correct_after (wrong_first : Bool) (r : Nat) : Nat :=
  if wrong_first = true then r - 1 else r

/-- The number of times the body of the loop `while(!done)` is run to its end
during a run of `main_loop`: the rounds, scored or abandoned. -/
def main_rounds (fl : Flags) (env : Env) : Nat → State → Nat
  | 0, _ => 0
  | fuel + 1, s =>
    let d := read_done env s
    if d.1 then 0
    else
      match round_body fl env fuel d.2 with
      | none => 0
      | some s1 => 1 + main_rounds fl env fuel s1

/-! ## Lemmas on the sampler -/

theorem black_cond_iff (n : Nat) : black_cond n = true ↔ n ∈ [1, 3, 6, 8, 10] := by
  unfold black_cond b2i
  by_cases h1 : n = 1
  · subst h1; decide
  by_cases h3 : n = 3
  · subst h3; decide
  by_cases h6 : n = 6
  · subst h6; decide
  by_cases h8 : n = 8
  · subst h8; decide
  by_cases h10 : n = 10
  · subst h10; decide
  simp [h1, h3, h6, h8, h10]

theorem sub32_small (a : Nat) (h1 : 12 ≤ a) (h2 : a < U32) : sub32 a 12 = a - 12 := by
  unfold sub32 U32 at *
  omega

/-- A note in the range of the distribution has the pitch class `(note - 12) % 12`
without any wrap-around. -/
theorem letter_in_range (note : Nat) (h1 : 21 ≤ note) (h2 : note ≤ 108) :
    sub32 note 12 % 12 = (note - 12) % 12 := by
  rw [sub32_small note (by omega) (by unfold U32; omega)]

/-- When the rejection loop returns, it returns a white key in the range of the
distribution. -/
theorem reject_loop_result (draws : Nat → Nat) (hr : DrawsInRange draws) :
    ∀ (fuel ix note p ix1 : Nat), 21 ≤ note → note ≤ 108 →
      reject_loop draws fuel ix note (sub32 note 12 % 12) = some (p, ix1) →
      black_cond ((p - 12) % 12) = false ∧ 21 ≤ p ∧ p ≤ 108 := by
  intro fuel
  induction fuel with
  | zero => intro ix note p ix1 _ _ h; simp [reject_loop] at h
  | succ n ih =>
    intro ix note p ix1 h1 h2 h
    unfold reject_loop at h
    by_cases hb : black_cond (sub32 note 12 % 12) = true
    · rw [if_pos hb] at h
      exact ih (ix + 1) (draws ix) p ix1 (hr ix).1 (hr ix).2 h
    · rw [if_neg hb] at h
      simp only [Option.some.injEq, Prod.mk.injEq] at h
      obtain ⟨hp, _⟩ := h
      subst hp
      rw [letter_in_range note h1 h2] at hb
      exact ⟨by simpa using hb, h1, h2⟩

/-- The Easy transform `(note_letter + 12) + (12 * 4)` of a pitch class. -/
theorem easy_transform (l : Nat) (hl : l < 12) :
    (l + 12 + 12 * 4) % U32 = l + 60 := by
  unfold U32
  omega

/-- What `get_random_note` returns at Easy or Medium, in terms of the note the
rejection loop ends with. -/
theorem get_random_note_low (draws : Nat → Nat) (ix fuel difficulty p ix1 : Nat)
    (hd : difficulty = DIFFICULTY_EASY ∨ difficulty = DIFFICULTY_MED)
    (h : get_random_note draws ix fuel difficulty = some (p, ix1)) :
    ∃ note, reject_loop draws fuel (ix + 1) (draws ix) (sub32 (draws ix) 12 % 12)
        = some (note, ix1) ∧
      ((difficulty = DIFFICULTY_EASY ∧ p = (sub32 note 12 % 12 + 12 + 12 * 4) % U32) ∨
       (difficulty = DIFFICULTY_MED ∧ p = note)) := by
  have hle : difficulty ≤ DIFFICULTY_MED := by
    rcases hd with hd | hd
    · rw [hd]; decide
    · rw [hd]
  unfold get_random_note at h
  simp only [if_pos hle] at h
  cases hl : reject_loop draws fuel (ix + 1) (draws ix) (sub32 (draws ix) 12 % 12) with
  | none => rw [hl] at h; simp at h
  | some r =>
    obtain ⟨note, j⟩ := r
    rw [hl] at h
    rcases hd with hd | hd
    · simp only [hd, if_true] at h
      simp only [Option.some.injEq, Prod.mk.injEq] at h
      exact ⟨note, by rw [h.2], Or.inl ⟨hd, h.1.symm⟩⟩
    · have hne : ¬ difficulty = DIFFICULTY_EASY := by rw [hd]; decide
      simp only [if_neg hne] at h
      simp only [Option.some.injEq, Prod.mk.injEq] at h
      exact ⟨note, by rw [h.2], Or.inr ⟨hd, h.1.symm⟩⟩

/-- The rejection loop returns once a white key is among the next `k + 1`
draws, given `k + 2` evaluations of its condition. -/
theorem reject_loop_returns (draws : Nat → Nat) :
    ∀ (k ix note nl : Nat), black_cond (sub32 (draws (ix + k)) 12 % 12) = false →
      ∃ p ix1, reject_loop draws (k + 2) ix note nl = some (p, ix1) := by
  intro k
  induction k with
  | zero =>
    intro ix note nl hw
    by_cases hb : black_cond nl = true
    · refine ⟨draws ix, ix + 1, ?_⟩
      simp only [reject_loop, if_pos hb]
      rw [Nat.add_zero] at hw
      simp [hw]
    · exact ⟨note, ix, by simp only [reject_loop, if_neg hb]⟩
  | succ n ih =>
    intro ix note nl hw
    by_cases hb : black_cond nl = true
    · obtain ⟨p, ix1, h⟩ := ih (ix + 1) (draws ix) (sub32 (draws ix) 12 % 12)
        (by rw [show ix + 1 + n = ix + (n + 1) by omega]; exact hw)
      refine ⟨p, ix1, ?_⟩
      rw [show n + 1 + 2 = (n + 2) + 1 by omega]
      simp only [reject_loop, if_pos hb]
      exact h
    · refine ⟨note, ix, ?_⟩
      rw [show n + 1 + 2 = (n + 2) + 1 by omega]
      simp only [reject_loop, if_neg hb]

/-- The sampler returns, at every difficulty, as soon as the draws from `ix` on
contain a white key: with the first one at `ix + k`, fuel `k + 1` is enough. -/
theorem get_random_note_returns (draws : Nat → Nat) (ix k difficulty : Nat)
    (hw : black_cond (sub32 (draws (ix + k)) 12 % 12) = false) :
    ∃ p ix1, get_random_note draws ix (k + 1) difficulty = some (p, ix1) := by
  have hloop : ∃ p ix1, reject_loop draws (k + 1) (ix + 1) (draws ix)
      (sub32 (draws ix) 12 % 12) = some (p, ix1) := by
    cases k with
    | zero =>
      rw [Nat.add_zero] at hw
      exact ⟨draws ix, ix + 1, by simp [reject_loop, hw]⟩
    | succ n =>
      exact reject_loop_returns draws n (ix + 1) (draws ix) (sub32 (draws ix) 12 % 12)
        (by rw [show ix + 1 + n = ix + (n + 1) by omega]; exact hw)
  obtain ⟨p, ix1, hl⟩ := hloop
  unfold get_random_note
  by_cases hle : difficulty ≤ DIFFICULTY_MED
  · simp only [if_pos hle, hl]
    by_cases he : difficulty = DIFFICULTY_EASY
    · exact ⟨_, _, by rw [if_pos he]⟩
    · exact ⟨_, _, by rw [if_neg he]⟩
  · simp only [if_neg hle]
    by_cases he : difficulty = DIFFICULTY_EASY
    · exact ⟨_, _, by rw [if_pos he]⟩
    · exact ⟨_, _, by rw [if_neg he]⟩

theorem sample_draws_in_range : DrawsInRange sample_draws := by
  intro i
  unfold sample_draws
  by_cases h : i = 0
  · simp [h]
  · simp [h]

/-! ## The sampler: results -/

/-- C1: at difficulty Easy or Medium, whenever `get_random_note` returns on
draws taken from [21,108], the pitch class `(p - 12) % 12` of the returned
pitch is none of 1, 3, 6, 8, 10: the result is never a black key. -/
theorem get_random_note_never_black (draws : Nat → Nat) (ix fuel difficulty p ix1 : Nat)
    (hd : difficulty = DIFFICULTY_EASY ∨ difficulty = DIFFICULTY_MED)
    (hr : DrawsInRange draws)
    (h : get_random_note draws ix fuel difficulty = some (p, ix1)) :
    (p - 12) % 12 ∉ [1, 3, 6, 8, 10] := by
  obtain ⟨note, hl, hp⟩ := get_random_note_low draws ix fuel difficulty p ix1 hd h
  obtain ⟨hw, h1, h2⟩ :=
    reject_loop_result draws hr fuel (ix + 1) (draws ix) note ix1 (hr ix).1 (hr ix).2 hl
  have hnb : (note - 12) % 12 ∉ [1, 3, 6, 8, 10] := by
    intro hmem
    rw [(black_cond_iff _).mpr hmem] at hw
    exact Bool.noConfusion hw
  rcases hp with ⟨_, hp⟩ | ⟨_, hp⟩
  · rw [letter_in_range note h1 h2, easy_transform _ (Nat.mod_lt _ (by decide))] at hp
    have hc : (p - 12) % 12 = (note - 12) % 12 := by rw [hp]; omega
    rw [hc]
    exact hnb
  · rw [hp]
    exact hnb

theorem get_random_note_never_black_witness :
    get_random_note sample_draws 0 2 DIFFICULTY_MED = some (60, 2) ∧
      (60 - 12) % 12 ∉ [1, 3, 6, 8, 10] :=
  ⟨by decide,
   get_random_note_never_black sample_draws 0 2 DIFFICULTY_MED 60 2 (Or.inr rfl)
     sample_draws_in_range (by decide)⟩

/-- C2: at difficulty Easy, whenever `get_random_note` returns on draws taken
from [21,108], the octave index `(p - 12) / 12` of the returned pitch is the
reference octave 4. -/
theorem get_random_note_easy_octave (draws : Nat → Nat) (ix fuel p ix1 : Nat)
    (hr : DrawsInRange draws)
    (h : get_random_note draws ix fuel DIFFICULTY_EASY = some (p, ix1)) :
    (p - 12) / 12 = 4 := by
  obtain ⟨note, hl, hp⟩ :=
    get_random_note_low draws ix fuel DIFFICULTY_EASY p ix1 (Or.inl rfl) h
  obtain ⟨_, h1, h2⟩ :=
    reject_loop_result draws hr fuel (ix + 1) (draws ix) note ix1 (hr ix).1 (hr ix).2 hl
  rcases hp with ⟨_, hp⟩ | ⟨hd, _⟩
  · rw [letter_in_range note h1 h2, easy_transform _ (Nat.mod_lt _ (by decide))] at hp
    rw [hp]
    omega
  · exact absurd hd (by decide)

theorem get_random_note_easy_octave_witness :
    get_random_note sample_draws 0 2 DIFFICULTY_EASY = some (60, 2) ∧ (60 - 12) / 12 = 4 :=
  ⟨by decide,
   get_random_note_easy_octave sample_draws 0 2 60 2 sample_draws_in_range (by decide)⟩

/-- C3: at every difficulty (Easy, Medium, Hard), whenever `get_random_note`
returns on draws taken from [21,108], the returned pitch lies in [21,108]; at
Easy it lies in [60,71], so the fixed-octave transform stays in range. -/
theorem get_random_note_in_range (draws : Nat → Nat) (ix fuel difficulty p ix1 : Nat)
    (hd : difficulty = DIFFICULTY_EASY ∨ difficulty = DIFFICULTY_MED ∨
      difficulty = DIFFICULTY_HARD)
    (hr : DrawsInRange draws)
    (h : get_random_note draws ix fuel difficulty = some (p, ix1)) :
    (21 ≤ p ∧ p ≤ 108) ∧ (difficulty = DIFFICULTY_EASY → 60 ≤ p ∧ p ≤ 71) := by
  rcases hd with hd | hd | hd
  · obtain ⟨note, hl, hp⟩ := get_random_note_low draws ix fuel difficulty p ix1 (Or.inl hd) h
    obtain ⟨_, h1, h2⟩ :=
      reject_loop_result draws hr fuel (ix + 1) (draws ix) note ix1 (hr ix).1 (hr ix).2 hl
    rcases hp with ⟨_, hp⟩ | ⟨hm, _⟩
    · rw [letter_in_range note h1 h2, easy_transform _ (Nat.mod_lt _ (by decide))] at hp
      have hlt : (note - 12) % 12 < 12 := Nat.mod_lt _ (by decide)
      exact ⟨by omega, fun _ => by omega⟩
    · rw [hd] at hm
      exact absurd hm (by decide)
  · obtain ⟨note, hl, hp⟩ := get_random_note_low draws ix fuel difficulty p ix1 (Or.inr hd) h
    obtain ⟨_, h1, h2⟩ :=
      reject_loop_result draws hr fuel (ix + 1) (draws ix) note ix1 (hr ix).1 (hr ix).2 hl
    rcases hp with ⟨he, _⟩ | ⟨_, hp⟩
    · rw [hd] at he
      exact absurd he (by decide)
    · rw [hp]
      exact ⟨⟨h1, h2⟩, fun he => absurd (hd ▸ he) (by decide)⟩
  · subst hd
    have hp : p = draws ix := by
      simp [get_random_note, DIFFICULTY_HARD, DIFFICULTY_MED, DIFFICULTY_EASY] at h
      exact h.1.symm
    rw [hp]
    exact ⟨hr ix, fun he => absurd he (by decide)⟩

theorem get_random_note_in_range_witness :
    get_random_note sample_draws 0 2 DIFFICULTY_HARD = some (61, 1) ∧
      ((21 ≤ 61 ∧ 61 ≤ 108) ∧ (DIFFICULTY_HARD = DIFFICULTY_EASY → 60 ≤ 61 ∧ 61 ≤ 71)) :=
  ⟨by decide,
   get_random_note_in_range sample_draws 0 2 DIFFICULTY_HARD 61 1 (Or.inr (Or.inr rfl))
     sample_draws_in_range (by decide)⟩

/-! ## The namer: results -/

/-- All 88 pitches, in both notations: the name without its last character is
non-empty and made of characters below U+2080, and the last character is the
subscript digit of the octave index. -/
theorem name_shape_all :
    ∀ p ∈ List.range' 21 88, ∀ s ∈ ["english", "solfege"],
      (get_note_name p s).data.dropLast ≠ [] ∧
      (∀ c ∈ (get_note_name p s).data.dropLast, c.toNat < 0x2080) ∧
      (get_note_name p s).data =
        (get_note_name p s).data.dropLast ++ [Char.ofNat (0x2080 + (p - 12) / 12)] ∧
      (Char.ofNat (0x2080 + (p - 12) / 12)).toNat = 0x2080 + (p - 12) / 12 := by
  decide

/-- C4: for every pitch `p` in [21,108], `get_note_name p "english"` and
`get_note_name p "solfege"` are a non-empty label (whose characters are all
below U+2080) followed by exactly one suffix character, the subscript digit
with code point `0x2080 + (p - 12) / 12`. -/
theorem get_note_name_octave_suffix (p : Nat) (s : String) (h1 : 21 ≤ p) (h2 : p ≤ 108)
    (hs : s = "english" ∨ s = "solfege") :
    ∃ label : List Char, label ≠ [] ∧ (∀ c ∈ label, c.toNat < 0x2080) ∧
      (get_note_name p s).data = label ++ [Char.ofNat (0x2080 + (p - 12) / 12)] ∧
      (Char.ofNat (0x2080 + (p - 12) / 12)).toNat = 0x2080 + (p - 12) / 12 := by
  have hp : p ∈ List.range' 21 88 := by
    rw [List.mem_range'_1]
    omega
  have hmem : s ∈ ["english", "solfege"] := by
    rcases hs with hs | hs
    · rw [hs]; exact List.mem_cons_self _ _
    · rw [hs]; exact List.mem_cons_of_mem _ (List.mem_cons_self _ _)
  obtain ⟨ha, hb, hc, hd⟩ := name_shape_all p hp s hmem
  exact ⟨_, ha, hb, hc, hd⟩

theorem get_note_name_octave_suffix_witness :
    ∃ label : List Char, label ≠ [] ∧ (∀ c ∈ label, c.toNat < 0x2080) ∧
      (get_note_name 60 "solfege").data = label ++ [Char.ofNat (0x2080 + (60 - 12) / 12)] ∧
      (Char.ofNat (0x2080 + (60 - 12) / 12)).toNat = 0x2080 + (60 - 12) / 12 :=
  get_note_name_octave_suffix 60 "solfege" (by decide) (by decide) (Or.inr rfl)

/-! ## Lemmas on the session -/

/-- For a channel in 1..16 the expected status byte is `0x90 + (channel - 1)`,
without wrap-around. -/
theorem expected_status_channel (c : Nat) (h1 : 1 ≤ c) (h2 : c ≤ 16) :
    expected_status c = 0x90 + (c - 1) := by
  unfold expected_status CHANNEL_1_NOTE_ON U64
  omega

theorem read_done_counters (env : Env) (s : State) :
    (read_done env s).2.num_asked = s.num_asked ∧
      (read_done env s).2.num_correct = s.num_correct := by
  simp [read_done]

theorem getMessage_counters (env : Env) (s : State) :
    (getMessage env s).2.num_asked = s.num_asked ∧
      (getMessage env s).2.num_correct = s.num_correct := by
  unfold getMessage
  split <;> simp

theorem sendMessage_counters (fl : Flags) (m : List Nat) (s : State) :
    (sendMessage fl m s).num_asked = s.num_asked ∧
      (sendMessage fl m s).num_correct = s.num_correct := by
  unfold sendMessage
  split <;> simp

/-- One iteration of the polling loop never touches the counters. -/
theorem poll_body_counters (fl : Flags) (env : Env) (s : State) (rn : Int) :
    (poll_body fl env s rn).1.num_asked = s.num_asked ∧
      (poll_body fl env s rn).1.num_correct = s.num_correct := by
  have hg := getMessage_counters env s
  have hs := sendMessage_counters fl (getMessage env s).1 (getMessage env s).2
  by_cases h : (getMessage env s).1.length ≠ 0
  · simp only [poll_body, if_pos h]
    exact ⟨hs.1.trans hg.1, hs.2.trans hg.2⟩
  · simp only [poll_body, if_neg h]
    exact hg

/-- The result of one iteration in terms of the message that was read. -/
theorem poll_body_read_note (fl : Flags) (env : Env) (s : State) (rn : Int) :
    (poll_body fl env s rn).2 = classify fl.FLAGS_channel (getMessage env s).1 rn := by
  by_cases h : (getMessage env s).1.length ≠ 0
  · simp only [poll_body, if_pos h]
  · have hlen : (getMessage env s).1.length ≠ 3 := by
      simp only [ne_eq, Decidable.not_not] at h
      rw [h]
      decide
    simp only [poll_body, if_neg h, classify, if_neg hlen]

/-- With `read_note` zero and `done` not yet seen, the loop runs its body once
and comes back to its condition. -/
theorem poll_loop_step (fl : Flags) (env : Env) (fuel : Nat) (s : State)
    (hd : (read_done env s).1 = false) :
    poll_loop fl env (fuel + 1) s 0 =
      poll_loop fl env fuel (poll_body fl env (read_done env s).2 0).1
        (poll_body fl env (read_done env s).2 0).2 := by
  simp [poll_loop, hd]

/-- With `read_note` non-zero the loop ends at once, without reading `done`. -/
theorem poll_loop_exit (fl : Flags) (env : Env) (fuel : Nat) (s : State) (rn : Int)
    (h : rn ≠ 0) : poll_loop fl env (fuel + 1) s rn = some (s, rn) := by
  simp [poll_loop, h]

/-- With `read_note` zero and `done` seen, the loop ends with `read_note` zero. -/
theorem poll_loop_cancel (fl : Flags) (env : Env) (fuel : Nat) (s : State)
    (hd : (read_done env s).1 = true) :
    poll_loop fl env (fuel + 1) s 0 = some ((read_done env s).2, 0) := by
  simp [poll_loop, hd]

/-- A Note-On for the configured channel with non-zero velocity sets `read_note`
to its second byte. -/
theorem classify_note_on (c p v : Nat) (rn : Int) (h1 : 1 ≤ c) (h2 : c ≤ 16) (hv : v ≠ 0) :
    classify c [0x90 + (c - 1), p, v] rn = (p : Int) := by
  simp [classify, expected_status_channel c h1 h2, hv]

/-- A message of another length, with another status byte, or with velocity
zero leaves `read_note` as it was. -/
theorem classify_other (c : Nat) (m : List Nat) (rn : Int)
    (h : m.length ≠ 3 ∨ m.getD 0 0 ≠ expected_status c ∨ m.getD 2 0 = 0) :
    classify c m rn = rn := by
  unfold classify
  by_cases hl : m.length = 3
  · rw [if_pos hl]
    rcases h with h | h | h
    · exact absurd hl h
    · rw [if_neg (fun hc => h hc.1)]
    · rw [if_neg (fun hc => hc.2 h)]
  · rw [if_neg hl]

/-- A Note-On for the configured channel with non-zero velocity and non-zero
pitch ends the polling loop on the iteration that reads it, with `read_note` the
pitch. -/
theorem poll_loop_press (fl : Flags) (env : Env) (fuel : Nat) (s : State) (c p v : Nat)
    (h1 : 1 ≤ c) (h2 : c ≤ 16) (hfl : fl.FLAGS_channel = c) (hp : p ≠ 0) (hv : v ≠ 0)
    (hd : (read_done env s).1 = false)
    (hm : (getMessage env (read_done env s).2).1 = [0x90 + (c - 1), p, v]) :
    poll_loop fl env (fuel + 2) s 0 =
      some ((poll_body fl env (read_done env s).2 0).1, (p : Int)) := by
  rw [poll_loop_step fl env (fuel + 1) s hd, poll_body_read_note, hm, hfl,
    classify_note_on c p v 0 h1 h2 hv]
  exact poll_loop_exit fl env fuel _ _ (by exact_mod_cast hp)

theorem read_done_fst (env : Env) (s : State) (c : Nat) (hc : env.cancelAt = some c) :
    (read_done env s).1 = decide (c ≤ s.doneIx) := by
  simp [read_done, hc]

theorem read_done_snd (env : Env) (s : State) :
    (read_done env s).2 = { s with doneIx := s.doneIx + 1 } := rfl

theorem getMessage_empty (env : Env) (s : State) (hq : s.queue = [])
    (ha : env.arrivals s.msgIx = []) :
    getMessage env s = ([], { s with queue := [], msgIx := s.msgIx + 1 }) := by
  simp [getMessage, hq, ha]

theorem poll_loop_idle (fl : Flags) (env : Env) (c : Nat) (hc : env.cancelAt = some c)
    (n : Nat) : ∀ (s : State) (fuel : Nat), s.queue = [] →
      (∀ k, s.msgIx ≤ k → env.arrivals k = []) → c ≤ s.doneIx + n → n + 1 ≤ fuel →
      ∃ s1, poll_loop fl env fuel s 0 = some (s1, 0) ∧ s1.num_asked = s.num_asked ∧
        s1.num_correct = s.num_correct ∧ c < s1.doneIx := by
  induction n with
  | zero =>
    intro s fuel _ _ hle hf
    obtain ⟨f, rfl⟩ : ∃ f, fuel = f + 1 := ⟨fuel - 1, by omega⟩
    have hd : (read_done env s).1 = true := by
      rw [read_done_fst env s c hc]; simpa using hle
    refine ⟨(read_done env s).2, poll_loop_cancel fl env f s hd, ?_, ?_, ?_⟩
    · exact (read_done_counters env s).1
    · exact (read_done_counters env s).2
    · rw [read_done_snd]; simp only; omega
  | succ n ih =>
    intro s fuel hq ha hle hf
    obtain ⟨f, rfl⟩ : ∃ f, fuel = f + 1 := ⟨fuel - 1, by omega⟩
    by_cases hcs : c ≤ s.doneIx
    · have hd : (read_done env s).1 = true := by
        rw [read_done_fst env s c hc]; simpa using hcs
      refine ⟨(read_done env s).2, poll_loop_cancel fl env f s hd, ?_, ?_, ?_⟩
      · exact (read_done_counters env s).1
      · exact (read_done_counters env s).2
      · rw [read_done_snd]; simp only; omega
    · have hd : (read_done env s).1 = false := by
        rw [read_done_fst env s c hc]; simpa using hcs
      have hg : getMessage env (read_done env s).2 =
          ([], { (read_done env s).2 with queue := [], msgIx := s.msgIx + 1 }) :=
        getMessage_empty env (read_done env s).2 hq (ha _ (le_refl _))
      have hb : poll_body fl env (read_done env s).2 0 =
          ({ (read_done env s).2 with queue := [], msgIx := s.msgIx + 1 }, 0) := by
        simp [poll_body, hg]
      rw [poll_loop_step fl env f s hd, hb]
      obtain ⟨s1, h1, h2, h3, h4⟩ := ih
        { (read_done env s).2 with queue := [], msgIx := s.msgIx + 1 } f rfl
        (fun k hk => ha k (by simp only at hk; omega))
        (by rw [read_done_snd]; simp only; omega) (by omega)
      exact ⟨s1, h1, h2, h3, h4⟩


theorem get_random_note_hard (draws : Nat → Nat) (ix fuel : Nat) :
    get_random_note draws ix fuel DIFFICULTY_HARD = some (draws ix, ix + 1) := by
  simp [get_random_note, DIFFICULTY_HARD, DIFFICULTY_MED, DIFFICULTY_EASY]

theorem to_int32_small (n : Nat) (h : n < 2 ^ 31) : to_int32 n = (n : Int) := by
  have hm : n % U32 = n := Nat.mod_eq_of_lt (by unfold U32; omega)
  unfold to_int32
  rw [hm, if_pos h]

theorem getMessage_frame (env : Env) (s : State) :
    (getMessage env s).2.doneIx = s.doneIx ∧ (getMessage env s).2.msgIx = s.msgIx + 1 ∧
      (getMessage env s).2.drawIx = s.drawIx := by
  unfold getMessage
  split <;> simp

theorem getMessage_single (env : Env) (s : State) (m : List Nat) (hq : s.queue = [])
    (ha : env.arrivals s.msgIx = [m]) :
    (getMessage env s).1 = m ∧ (getMessage env s).2.queue = [] := by
  simp [getMessage, hq, ha]

theorem sendMessage_frame (fl : Flags) (m : List Nat) (s : State) :
    (sendMessage fl m s).doneIx = s.doneIx ∧ (sendMessage fl m s).msgIx = s.msgIx ∧
      (sendMessage fl m s).drawIx = s.drawIx ∧ (sendMessage fl m s).queue = s.queue := by
  unfold sendMessage
  split <;> simp

theorem poll_body_frame (fl : Flags) (env : Env) (s : State) (rn : Int) :
    (poll_body fl env s rn).1.doneIx = s.doneIx ∧
      (poll_body fl env s rn).1.msgIx = s.msgIx + 1 ∧
      (poll_body fl env s rn).1.drawIx = s.drawIx ∧
      (poll_body fl env s rn).1.queue = (getMessage env s).2.queue := by
  have hg := getMessage_frame env s
  have hs := sendMessage_frame fl (getMessage env s).1 (getMessage env s).2
  by_cases h : (getMessage env s).1.length ≠ 0
  · simp only [poll_body, if_pos h]
    exact ⟨hs.1.trans hg.1, hs.2.1.trans hg.2.1, hs.2.2.1.trans hg.2.2, hs.2.2.2⟩
  · simp only [poll_body, if_neg h]
    exact ⟨hg.1, hg.2.1, hg.2.2, trivial⟩


theorem score_frame (s : State) (d : Bool) (p t : Int) :
    (score s d p t).doneIx = s.doneIx ∧ (score s d p t).msgIx = s.msgIx ∧
      (score s d p t).drawIx = s.drawIx ∧ (score s d p t).queue = s.queue := by
  unfold score
  split
  · split <;> simp
  · simp

theorem score_hit (s : State) (t : Int) :
    (score s false t t).num_asked = inc32 s.num_asked ∧
      (score s false t t).num_correct = inc32 s.num_correct := by
  simp [score]

theorem round_listen_eq (fl : Flags) (env : Env) (fuel : Nat) (s s1 : State)
    (note ix : Nat) (rn : Int)
    (hg : get_random_note env.draws s.drawIx fuel (difficulty_of fl.FLAGS_difficulty)
      = some (note, ix))
    (hp : poll_loop fl env fuel (getMessage env { s with drawIx := ix }).2 0 = some (s1, rn)) :
    round_listen fl env fuel s = some (s1, to_int32 note, rn) := by
  simp only [round_listen, hg, hp]

theorem first_round (fl : Flags) (env : Env) (t c f : Nat)
    (hdiff : fl.FLAGS_difficulty = "hard") (hch : fl.FLAGS_channel = 1)
    (ht1 : 21 ≤ t) (ht2 : t ≤ 108) (hs : Script env t c) (hc : 4 ≤ c) (hf : 3 ≤ f) :
    ∃ s1, round_body fl env f (read_done env initial_state).2 = some s1 ∧
      s1.num_asked = 1 ∧ s1.num_correct = 1 ∧ s1.queue = [] ∧ s1.msgIx = 3 ∧
      s1.doneIx = 4 := by
  obtain ⟨hd0, ha0, ha1, ha2, _, hca⟩ := hs
  obtain ⟨g, rfl⟩ : ∃ g, f = g + 3 := ⟨f - 3, by omega⟩
  have hdf : difficulty_of fl.FLAGS_difficulty = DIFFICULTY_HARD := by rw [hdiff]; decide
  -- sampling and the drain read
  have hsample : get_random_note env.draws (read_done env initial_state).2.drawIx (g + 3)
      (difficulty_of fl.FLAGS_difficulty) = some (t, 1) := by
    rw [hdf, get_random_note_hard]
    simp [read_done, initial_state, hd0]
  obtain ⟨sB, hsB⟩ : ∃ sB, sB =
      (getMessage env { (read_done env initial_state).2 with drawIx := 1 }).2 := ⟨_, rfl⟩
  have hBf := getMessage_frame env { (read_done env initial_state).2 with drawIx := 1 }
  have hBc := getMessage_counters env { (read_done env initial_state).2 with drawIx := 1 }
  have hBq : sB.queue = [] := by
    rw [hsB, getMessage_empty env _ rfl (by simpa [read_done, initial_state] using ha0)]
  rw [← hsB] at hBf hBc
  simp only [read_done, initial_state] at hBf hBc
  -- first poll: the Note-On with velocity 0
  have hd1 : (read_done env sB).1 = false := by
    rw [read_done_fst env sB c hca, hBf.1]; simp; omega
  have hm1 := getMessage_single env (read_done env sB).2 [0x90, 60, 0] hBq
    (by rw [read_done_snd]; simp only [hBf.2.1]; exact ha1)
  obtain ⟨sC, hsC⟩ : ∃ sC, sC = (poll_body fl env (read_done env sB).2 0).1 := ⟨_, rfl⟩
  have hCf := poll_body_frame fl env (read_done env sB).2 0
  have hCc := poll_body_counters fl env (read_done env sB).2 0
  have hCr : (poll_body fl env (read_done env sB).2 0).2 = 0 := by
    rw [poll_body_read_note, hm1.1]
    exact classify_other _ _ _ (Or.inr (Or.inr rfl))
  rw [← hsC, hm1.2] at hCf
  rw [← hsC] at hCc
  simp only [read_done_snd, hBf, hBc] at hCf hCc
  -- second poll: the press of the target
  have hd2 : (read_done env sC).1 = false := by
    rw [read_done_fst env sC c hca, hCf.1]; simp; omega
  have hm2 := getMessage_single env (read_done env sC).2 [0x90, t, 64] hCf.2.2.2
    (by rw [read_done_snd]; simp only [hCf.2.1]; exact ha2)
  obtain ⟨sD, hsD⟩ : ∃ sD, sD = (poll_body fl env (read_done env sC).2 0).1 := ⟨_, rfl⟩
  have hDf := poll_body_frame fl env (read_done env sC).2 0
  have hDc := poll_body_counters fl env (read_done env sC).2 0
  rw [← hsD, hm2.2] at hDf
  rw [← hsD] at hDc
  simp only [read_done_snd, hCf, hCc] at hDf hDc
  have hpoll : poll_loop fl env (g + 3) sB 0 = some (sD, (t : Int)) := by
    rw [poll_loop_step fl env (g + 2) sB hd1, ← hsC, hCr, hsD]
    exact poll_loop_press fl env g sC 1 t 64 (by decide) (by decide) hch (by omega)
      (by decide) hd2 hm2.1
  have hlisten := round_listen_eq fl env (g + 3) (read_done env initial_state).2 sD t 1
    (t : Int) hsample (by rw [← hsB]; exact hpoll)
  -- scoring
  have hd3 : (read_done env sD).1 = false := by
    rw [read_done_fst env sD c hca, hDf.1]; simp; omega
  have hti : to_int32 t = (t : Int) := to_int32_small t (by omega)
  have hsc := score_hit (read_done env sD).2 (t : Int)
  have hsf := score_frame (read_done env sD).2 false (t : Int) (t : Int)
  refine ⟨score (read_done env sD).2 false (t : Int) (t : Int), ?_, ?_, ?_, ?_, ?_, ?_⟩
  · simp only [round_body, hlisten, hd3, hti]
  · rw [hsc.1, (read_done_counters env sD).1, hDc.1]; decide
  · rw [hsc.2, (read_done_counters env sD).2, hDc.2]; decide
  · rw [hsf.2.2.2, read_done_snd]; exact hDf.2.2.2
  · rw [hsf.2.1, read_done_snd]; exact hDf.2.1
  · rw [hsf.1, read_done_snd]; simp only [hDf.1]

theorem main_loop_cancelled (fl : Flags) (env : Env) (fuel : Nat) (s : State)
    (hd : (read_done env s).1 = true) :
    main_loop fl env (fuel + 1) s = some (read_done env s).2 := by
  simp [main_loop, hd]

theorem main_loop_round (fl : Flags) (env : Env) (fuel : Nat) (s s1 : State)
    (hd : (read_done env s).1 = false)
    (hr : round_body fl env fuel (read_done env s).2 = some s1) :
    main_loop fl env (fuel + 1) s = main_loop fl env fuel s1 := by
  simp [main_loop, hd, hr]

/-- A round in which nothing arrives and the interrupt comes is abandoned. -/
theorem idle_round (fl : Flags) (env : Env) (c g : Nat) (s : State)
    (hdiff : fl.FLAGS_difficulty = "hard") (hca : env.cancelAt = some c)
    (hq : s.queue = []) (ha : ∀ k, s.msgIx ≤ k → env.arrivals k = [])
    (hg : c < s.doneIx + g) (hg1 : 1 ≤ g) :
    ∃ s1, round_body fl env g s = some s1 ∧ s1.num_asked = s.num_asked ∧
      s1.num_correct = s.num_correct ∧ c ≤ s1.doneIx := by
  have hdf : difficulty_of fl.FLAGS_difficulty = DIFFICULTY_HARD := by rw [hdiff]; decide
  have hsample : get_random_note env.draws s.drawIx g (difficulty_of fl.FLAGS_difficulty)
      = some (env.draws s.drawIx, s.drawIx + 1) := by
    rw [hdf, get_random_note_hard]
  have hdrain := getMessage_empty env { s with drawIx := s.drawIx + 1 } hq (ha _ (le_refl _))
  obtain ⟨sP, hP, hPa, hPc, hPd⟩ := poll_loop_idle fl env c hca (g - 1)
    (getMessage env { s with drawIx := s.drawIx + 1 }).2 g
    (by rw [hdrain]) (fun k hk => ha k (by rw [hdrain] at hk; simp only at hk; omega))
    (by rw [hdrain]; simp only; omega) (by omega)
  have hlisten := round_listen_eq fl env g s sP (env.draws s.drawIx) (s.drawIx + 1) 0
    hsample hP
  have hd : (read_done env sP).1 = true := by
    rw [read_done_fst env sP c hca]; simp; omega
  refine ⟨(read_done env sP).2, ?_, ?_, ?_, ?_⟩
  · simp [round_body, hlisten, hd, score]
  · rw [(read_done_counters env sP).1, hPa, hdrain]
  · rw [(read_done_counters env sP).2, hPc, hdrain]
  · rw [read_done_snd]; simp only; omega

/-- The polling loop never touches the counters. -/
theorem poll_loop_counters (fl : Flags) (env : Env) :
    ∀ (fuel : Nat) (s : State) (rn : Int) (s1 : State) (rn1 : Int),
      poll_loop fl env fuel s rn = some (s1, rn1) →
      s1.num_asked = s.num_asked ∧ s1.num_correct = s.num_correct := by
  intro fuel
  induction fuel with
  | zero => intro s rn s1 rn1 h; simp [poll_loop] at h
  | succ n ih =>
    intro s rn s1 rn1 h
    unfold poll_loop at h
    by_cases hrn : rn ≠ 0
    · rw [if_pos hrn] at h
      simp only [Option.some.injEq, Prod.mk.injEq] at h
      rw [← h.1]
      exact ⟨rfl, rfl⟩
    · rw [if_neg hrn] at h
      by_cases hd : (read_done env s).1 = true
      · simp only [hd, if_true, Option.some.injEq, Prod.mk.injEq] at h
        rw [← h.1]
        exact read_done_counters env s
      · simp only [hd] at h
        have h2 := ih _ _ _ _ h
        have hb := poll_body_counters fl env (read_done env s).2 rn
        have hr := read_done_counters env s
        exact ⟨h2.1.trans (hb.1.trans hr.1), h2.2.trans (hb.2.trans hr.2)⟩

/-- Sampling, the drain read and the polling loop never touch the counters. -/
theorem round_listen_counters (fl : Flags) (env : Env) (fuel : Nat) (s s1 : State)
    (t p : Int) (h : round_listen fl env fuel s = some (s1, t, p)) :
    s1.num_asked = s.num_asked ∧ s1.num_correct = s.num_correct := by
  unfold round_listen at h
  cases hg : get_random_note env.draws s.drawIx fuel (difficulty_of fl.FLAGS_difficulty) with
  | none => rw [hg] at h; simp at h
  | some r =>
    obtain ⟨note, ix⟩ := r
    rw [hg] at h
    simp only at h
    cases hp : poll_loop fl env fuel (getMessage env { s with drawIx := ix }).2 0 with
    | none => rw [hp] at h; simp at h
    | some q =>
      obtain ⟨s2, rn⟩ := q
      rw [hp] at h
      simp only [Option.some.injEq, Prod.mk.injEq] at h
      have h1 := poll_loop_counters fl env fuel _ _ _ _ hp
      have h2 := getMessage_counters env { s with drawIx := ix }
      rw [← h.1]
      exact ⟨h1.1.trans h2.1, h1.2.trans h2.2⟩

theorem inc32_small (n : Nat) (h : n + 1 < U32) : inc32 n = n + 1 := by
  unfold inc32
  exact Nat.mod_eq_of_lt h

/-! ## The session: classification of messages -/

/-- C5, at the failing input: on channel 1 the message `[0x90, 0, 64]` (Note-On,
pitch 0, velocity 64) leaves `read_note` at 0, so the polling loop does not end
on it: the iteration that reads it returns to the loop condition with
`read_note = 0`, and the loop ends only on the next message, after two calls of
`getMessage`, with `read_note = 62`. -/
theorem note_on_pitch_zero_not_a_press :
    classify 1 [0x90, 0, 64] 0 = 0 ∧
      (getMessage zero_pitch_env (read_done zero_pitch_env initial_state).2).1
        = [0x90, 0, 64] ∧
      (poll_body channel_one zero_pitch_env (read_done zero_pitch_env initial_state).2 0).2
        = 0 ∧
      (poll_loop channel_one zero_pitch_env 3 initial_state 0).map
        (fun r => (r.1.msgIx, r.2)) = some (2, 62) := by
  decide

/-- C6: for a channel `c` (in 1..16, or any other) and any pitch byte `p`, the message
`[0x90 + (c - 1), p, 0]` leaves `read_note` unchanged (it is not a press); when
it is read in the polling loop with `read_note = 0`, the loop goes on to its
next iteration with `read_note` still 0, and the counters are unchanged. -/
theorem zero_velocity_is_other (fl : Flags) (env : Env) (fuel : Nat) (s : State) (c p : Nat)
    (hfl : fl.FLAGS_channel = c)
    (hd : (read_done env s).1 = false)
    (hm : (getMessage env (read_done env s).2).1 = [0x90 + (c - 1), p, 0]) :
    (∀ rn : Int, classify c [0x90 + (c - 1), p, 0] rn = rn) ∧
      (poll_body fl env (read_done env s).2 0).2 = 0 ∧
      poll_loop fl env (fuel + 1) s 0 =
        poll_loop fl env fuel (poll_body fl env (read_done env s).2 0).1 0 ∧
      (poll_body fl env (read_done env s).2 0).1.num_asked = s.num_asked ∧
      (poll_body fl env (read_done env s).2 0).1.num_correct = s.num_correct := by
  have hcl : ∀ rn : Int, classify c [0x90 + (c - 1), p, 0] rn = rn := fun rn =>
    classify_other c _ rn (Or.inr (Or.inr rfl))
  have hrn : (poll_body fl env (read_done env s).2 0).2 = 0 := by
    rw [poll_body_read_note, hm, hfl]
    exact hcl 0
  have hc := poll_body_counters fl env (read_done env s).2 0
  have hr := read_done_counters env s
  refine ⟨hcl, hrn, ?_, hc.1.trans hr.1, hc.2.trans hr.2⟩
  rw [poll_loop_step fl env fuel s hd, hrn]

theorem zero_velocity_is_other_witness :
    (∀ rn : Int, classify 1 [0x90 + (1 - 1), 60, 0] rn = rn) ∧
      (poll_body channel_one zero_velocity_env
        (read_done zero_velocity_env initial_state).2 0).2 = 0 :=
  have h := zero_velocity_is_other channel_one zero_velocity_env 0 initial_state 1 60
    rfl (by decide) (by decide)
  ⟨h.1, h.2.1⟩

/-- C7: for a channel `c` in 1..16, a message that does not have exactly 3
bytes, or whose first byte is not `0x90 + (c - 1)`, leaves `read_note`
unchanged; when it is read in the polling loop with `read_note = 0`, the loop
goes on to its next iteration with `read_note` still 0, and the counters are
unchanged. -/
theorem wrong_length_or_status_is_other (fl : Flags) (env : Env) (fuel : Nat) (s : State)
    (c : Nat) (m : List Nat) (h1 : 1 ≤ c) (h2 : c ≤ 16) (hfl : fl.FLAGS_channel = c)
    (hne : m.length ≠ 3 ∨ m.getD 0 0 ≠ 0x90 + (c - 1))
    (hd : (read_done env s).1 = false)
    (hm : (getMessage env (read_done env s).2).1 = m) :
    (∀ rn : Int, classify c m rn = rn) ∧
      (poll_body fl env (read_done env s).2 0).2 = 0 ∧
      poll_loop fl env (fuel + 1) s 0 =
        poll_loop fl env fuel (poll_body fl env (read_done env s).2 0).1 0 ∧
      (poll_body fl env (read_done env s).2 0).1.num_asked = s.num_asked ∧
      (poll_body fl env (read_done env s).2 0).1.num_correct = s.num_correct := by
  have hcl : ∀ rn : Int, classify c m rn = rn := fun rn => by
    apply classify_other
    rcases hne with h | h
    · exact Or.inl h
    · exact Or.inr (Or.inl (by rw [expected_status_channel c h1 h2]; exact h))
  have hrn : (poll_body fl env (read_done env s).2 0).2 = 0 := by
    rw [poll_body_read_note, hm, hfl]
    exact hcl 0
  have hc := poll_body_counters fl env (read_done env s).2 0
  have hr := read_done_counters env s
  refine ⟨hcl, hrn, ?_, hc.1.trans hr.1, hc.2.trans hr.2⟩
  rw [poll_loop_step fl env fuel s hd, hrn]

theorem wrong_length_or_status_is_other_witness :
    (∀ rn : Int, classify 1 [0x91, 60, 64] rn = rn) ∧
      (poll_body channel_one wrong_channel_env
        (read_done wrong_channel_env initial_state).2 0).2 = 0 :=
  have h := wrong_length_or_status_is_other channel_one wrong_channel_env 0 initial_state 1
    [0x91, 60, 64] (by decide) (by decide) rfl (Or.inr (by decide)) (by decide) (by decide)
  ⟨h.1, h.2.1⟩

theorem script_env_ok : Script script_env 67 6 := by
  refine ⟨rfl, rfl, rfl, rfl, ?_, rfl⟩
  intro k hk
  have h1 : k ≠ 1 := by omega
  have h2 : k ≠ 2 := by omega
  simp [script_env, h1, h2]

/-! ## The session: rounds and the final report -/

/-- C8: at difficulty Hard on channel 1, starting from `num_asked = 0` and
`num_correct = 0`, with the sampled target `t` in [21,108]: when the drain read
is empty, the first poll reads `[0x90, 60, 0]`, the second reads
`[0x90, t, 64]`, nothing else arrives and the interrupt is seen only after the
first round was scored (read number `c ≥ 4` of `done`), the sampler returns `t`
and the session loop ends, given fuel above `c`, with `num_asked = 1` and
`num_correct = 1`. -/
theorem end_to_end_hard_round (fl : Flags) (env : Env) (t c fuel : Nat)
    (hdiff : fl.FLAGS_difficulty = "hard") (hch : fl.FLAGS_channel = 1)
    (ht1 : 21 ≤ t) (ht2 : t ≤ 108) (hs : Script env t c) (hc : 4 ≤ c) (hf : c < fuel) :
    get_random_note env.draws 0 fuel (difficulty_of fl.FLAGS_difficulty) = some (t, 1) ∧
      ∃ s1, main_loop fl env fuel initial_state = some s1 ∧ s1.num_asked = 1 ∧
        s1.num_correct = 1 := by
  have hca : env.cancelAt = some c := hs.2.2.2.2.2
  have ha3 : ∀ k, 3 ≤ k → env.arrivals k = [] := hs.2.2.2.2.1
  constructor
  · have hdf : difficulty_of fl.FLAGS_difficulty = DIFFICULTY_HARD := by rw [hdiff]; decide
    rw [hdf, get_random_note_hard, hs.1]
  obtain ⟨g, rfl⟩ : ∃ g, fuel = g + 3 := ⟨fuel - 3, by omega⟩
  obtain ⟨s1, hr1, h1a, h1c, h1q, h1m, h1d⟩ :=
    first_round fl env t c (g + 2) hdiff hch ht1 ht2 hs hc (by omega)
  have hd0 : (read_done env initial_state).1 = false := by
    rw [read_done_fst env _ c hca]; simp [initial_state]; omega
  rw [main_loop_round fl env (g + 2) initial_state s1 hd0 hr1]
  by_cases hc4 : c ≤ 4
  · have hd1 : (read_done env s1).1 = true := by
      rw [read_done_fst env s1 c hca, h1d]; simpa using hc4
    exact ⟨(read_done env s1).2, main_loop_cancelled fl env (g + 1) s1 hd1,
      (read_done_counters env s1).1.trans h1a, (read_done_counters env s1).2.trans h1c⟩
  · have hd1 : (read_done env s1).1 = false := by
      rw [read_done_fst env s1 c hca, h1d]; simpa using hc4
    obtain ⟨s2, hr2, h2a, h2c, h2d⟩ := idle_round fl env c (g + 1) (read_done env s1).2 hdiff
      hca (by rw [read_done_snd]; exact h1q)
      (fun k hk => ha3 k (by rw [read_done_snd] at hk; simp only [h1m] at hk; omega))
      (by rw [read_done_snd]; simp only [h1d]; omega) (by omega)
    rw [main_loop_round fl env (g + 1) s1 s2 hd1 hr2]
    have hd2 : (read_done env s2).1 = true := by
      rw [read_done_fst env s2 c hca]; simpa using h2d
    refine ⟨(read_done env s2).2, main_loop_cancelled fl env g s2 hd2, ?_, ?_⟩
    · rw [(read_done_counters env s2).1, h2a, (read_done_counters env s1).1, h1a]
    · rw [(read_done_counters env s2).2, h2c, (read_done_counters env s1).2, h1c]

theorem end_to_end_hard_round_witness :
    Script script_env 67 6 ∧
      (get_random_note script_env.draws 0 7 (difficulty_of channel_one.FLAGS_difficulty)
          = some (67, 1) ∧
        ∃ s1, main_loop channel_one script_env 7 initial_state = some s1 ∧
          s1.num_asked = 1 ∧ s1.num_correct = 1) :=
  ⟨script_env_ok,
   end_to_end_hard_round channel_one script_env 67 6 7 rfl rfl (by decide) (by decide)
     script_env_ok (by decide) (by decide)⟩

/-- C9, as stated, fails when a counter is at its maximum: from
`num_asked = 4294967295` a round in which the target 60 is pressed (read note
60, `done` never set) completes with `num_asked = 0`, not one more, so the
counter has decreased. -/
theorem round_at_max_wraps :
    (round_listen channel_one press_env 2 asked_at_max).map (fun r => r.2)
      = some (60, 60) ∧
    (round_body channel_one press_env 2 asked_at_max).map
      (fun s => (s.num_asked, s.num_correct)) = some (0, 1) ∧
    asked_at_max.num_asked = 4294967295 ∧ press_env.cancelAt = none := by
  decide

/-- C9, amended: for a round whose listening part ends with pressed pitch `p`
against target `t`, if both counters are below their maximum `2 ^ 32 - 1`, then
when the round completes (`done` is not seen at line 234) `num_asked` grows by
exactly 1 and `num_correct` grows by exactly 1 if `p = t` and is unchanged if
`p ≠ t`; when the round is abandoned both counters are unchanged; in either
case neither counter decreases. -/
theorem round_scoring (fl : Flags) (env : Env) (fuel : Nat) (s s1 : State) (t p : Int)
    (hl : round_listen fl env fuel s = some (s1, t, p))
    (ha : s.num_asked + 1 < U32) (hc : s.num_correct + 1 < U32) :
    ∃ s2, round_body fl env fuel s = some s2 ∧
      ((read_done env s1).1 = false →
        s2.num_asked = s.num_asked + 1 ∧ (p = t → s2.num_correct = s.num_correct + 1) ∧
          (p ≠ t → s2.num_correct = s.num_correct)) ∧
      ((read_done env s1).1 = true →
        s2.num_asked = s.num_asked ∧ s2.num_correct = s.num_correct) ∧
      s.num_asked ≤ s2.num_asked ∧ s.num_correct ≤ s2.num_correct := by
  have hk := round_listen_counters fl env fuel s s1 t p hl
  have hr := read_done_counters env s1
  refine ⟨score (read_done env s1).2 (read_done env s1).1 p t, ?_, ?_, ?_, ?_⟩
  · simp only [round_body, hl]
  · intro hd
    rw [hd]
    refine ⟨?_, ?_, ?_⟩
    · by_cases hpt : p = t
      · simp [score, hpt, hr.1, hk.1, inc32_small _ ha]
      · simp [score, hpt, hr.1, hk.1, inc32_small _ ha]
    · intro hpt
      simp [score, hpt, hr.2, hk.2, inc32_small _ hc]
    · intro hpt
      simp [score, hpt, hr.2, hk.2]
  · intro hd
    rw [hd]
    simp [score, hr.1, hr.2, hk.1, hk.2]
  · by_cases hd : (read_done env s1).1 = true
    · rw [hd]
      simp [score, hr.1, hr.2, hk.1, hk.2]
    · have hd2 : (read_done env s1).1 = false := by simpa using hd
      rw [hd2]
      by_cases hpt : p = t
      · simp [score, hpt, hr.1, hr.2, hk.1, hk.2, inc32_small _ ha, inc32_small _ hc]
      · simp [score, hpt, hr.1, hr.2, hk.1, hk.2, inc32_small _ ha]

theorem round_scoring_witness :
    round_listen channel_one press_env 2 initial_state =
        some ({ initial_state with drawIx := 1, msgIx := 2, doneIx := 1 }, 60, 60) ∧
      ∃ s2, round_body channel_one press_env 2 initial_state = some s2 ∧
        s2.num_asked = 1 ∧ s2.num_correct = 1 := by
  refine ⟨rfl, ?_⟩
  obtain ⟨s2, h, hc, _, _, _⟩ := round_scoring channel_one press_env 2 initial_state
    { initial_state with drawIx := 1, msgIx := 2, doneIx := 1 } 60 60 rfl
    (by decide) (by decide)
  exact ⟨s2, h, (hc (by decide)).1, (hc (by decide)).2.1 rfl⟩

/-- C10, at the failing input: when the interrupt is seen at the first read of
`done`, the session loop ends with `num_asked = 0` and `num_correct = 0`, and
the accuracy report divides `100 * num_correct = 0` by `num_asked = 0`: the
division is evaluated with a zero denominator, there is no guard. -/
theorem cancelled_at_start_divides_by_zero (fl : Flags) (draws : Nat → Nat)
    (arrivals : Nat → List (List Nat)) (fuel : Nat) :
    (main_loop fl { draws := draws, arrivals := arrivals, cancelAt := some 0 } (fuel + 1)
      initial_state).map (fun s => (s.num_asked, s.num_correct, accuracy_division s))
      = some (0, 0, { numerator := 0, denominator := 0 }) := by
  rw [main_loop_cancelled fl _ fuel initial_state (by simp [read_done, initial_state])]
  simp [read_done, initial_state, accuracy_division]
/-! ## The session: cancellation -/

/-- When the polling loop ends with `read_note` zero, the interrupt was seen by
a read of `done` made before the loop ended. -/
theorem poll_loop_zero (fl : Flags) (env : Env) :
    ∀ (fuel : Nat) (s : State) (rn : Int) (s1 : State),
      poll_loop fl env fuel s rn = some (s1, 0) →
      ∃ c, env.cancelAt = some c ∧ c < s1.doneIx := by
  intro fuel
  induction fuel with
  | zero => intro s rn s1 h; simp [poll_loop] at h
  | succ n ih =>
    intro s rn s1 h
    unfold poll_loop at h
    by_cases hrn : rn ≠ 0
    · rw [if_pos hrn] at h
      simp only [Option.some.injEq, Prod.mk.injEq] at h
      exact absurd h.2 hrn
    · rw [if_neg hrn] at h
      by_cases hd : (read_done env s).1 = true
      · simp only [hd, if_true, Option.some.injEq, Prod.mk.injEq] at h
        rw [← h.1]
        cases hc : env.cancelAt with
        | none => simp [read_done, hc] at hd
        | some c =>
          refine ⟨c, rfl, ?_⟩
          rw [read_done_fst env s c hc] at hd
          rw [read_done_snd]
          simp only
          have : c ≤ s.doneIx := by simpa using hd
          omega
      · simp only [hd] at h
        exact ih _ _ _ h

/-- A read of `done` numbered `c` or later sees the flag. -/
theorem read_done_true_of_lt (env : Env) (s : State) (c : Nat)
    (hc : env.cancelAt = some c) (h : c ≤ s.doneIx) : (read_done env s).1 = true := by
  rw [read_done_fst env s c hc]
  simpa using h

/-- C11: if the interrupt is observed during a round before the round is
scored, that is, the polling loop ends without a press (`read_note = 0`), or
the read of `done` at line 234 sees it, also when a press (matching or not) was
read just before, then the round leaves `num_asked` and `num_correct` as they
were when it started, and the session loop ends at its next check with the
same counters, handing them to the accuracy report. -/
theorem cancelled_round_is_abandoned (fl : Flags) (env : Env) (fuel : Nat) (s s1 : State)
    (t p : Int) (hl : round_listen fl env fuel s = some (s1, t, p))
    (hobs : p = 0 ∨ (read_done env s1).1 = true) :
    ∃ s2, round_body fl env fuel s = some s2 ∧ s2.num_asked = s.num_asked ∧
      s2.num_correct = s.num_correct ∧
      ∀ f, ∃ s3, main_loop fl env (f + 1) s2 = some s3 ∧ s3.num_asked = s.num_asked ∧
        s3.num_correct = s.num_correct ∧ accuracy_division s3 = accuracy_division s := by
  have hk := round_listen_counters fl env fuel s s1 t p hl
  have hr := read_done_counters env s1
  -- in both cases the read at line 234 sees the flag
  have hd : (read_done env s1).1 = true := by
    rcases hobs with hp | hd
    · subst hp
      have hpoll : ∃ s0, poll_loop fl env fuel s0 0 = some (s1, 0) := by
        unfold round_listen at hl
        cases hg : get_random_note env.draws s.drawIx fuel
            (difficulty_of fl.FLAGS_difficulty) with
        | none => rw [hg] at hl; simp at hl
        | some r =>
          obtain ⟨note, ix⟩ := r
          rw [hg] at hl
          simp only at hl
          cases hp : poll_loop fl env fuel (getMessage env { s with drawIx := ix }).2 0 with
          | none => rw [hp] at hl; simp at hl
          | some q =>
            obtain ⟨s2, rn⟩ := q
            rw [hp] at hl
            simp only [Option.some.injEq, Prod.mk.injEq] at hl
            exact ⟨_, by rw [hp, hl.1, hl.2.2]⟩
      obtain ⟨s0, hs0⟩ := hpoll
      obtain ⟨c, hc, hlt⟩ := poll_loop_zero fl env fuel s0 0 s1 hs0
      exact read_done_true_of_lt env s1 c hc (by omega)
    · exact hd
  have hbody : round_body fl env fuel s = some (read_done env s1).2 := by
    simp [round_body, hl, hd, score]
  refine ⟨(read_done env s1).2, hbody, hr.1.trans hk.1, hr.2.trans hk.2, ?_⟩
  intro f
  have hd2 : (read_done env (read_done env s1).2).1 = true := by
    cases hc : env.cancelAt with
    | none => simp [read_done, hc] at hd
    | some c =>
      rw [read_done_fst env s1 c hc] at hd
      have hle : c ≤ s1.doneIx := by simpa using hd
      exact read_done_true_of_lt env _ c hc (by rw [read_done_snd]; simp only; omega)
  have ha : (read_done env (read_done env s1).2).2.num_asked = s.num_asked :=
    (read_done_counters env _).1.trans (hr.1.trans hk.1)
  have hc : (read_done env (read_done env s1).2).2.num_correct = s.num_correct :=
    (read_done_counters env _).2.trans (hr.2.trans hk.2)
  refine ⟨_, main_loop_cancelled fl env f _ hd2, ha, hc, ?_⟩
  simp only [accuracy_division, ha, hc]

theorem cancelled_round_is_abandoned_witness :
    (round_listen channel_one late_cancel_env 3 initial_state).map (fun r => r.2)
        = some (67, 67) ∧
      ∃ s2, round_body channel_one late_cancel_env 3 initial_state = some s2 ∧
        s2.num_asked = 0 ∧ s2.num_correct = 0 := by
  refine ⟨by decide, ?_⟩
  obtain ⟨s2, h, ha, hc, _⟩ := cancelled_round_is_abandoned channel_one late_cancel_env 3
    initial_state { initial_state with drawIx := 1, msgIx := 3, doneIx := 2 } 67 67 rfl
    (Or.inr (by decide))
  exact ⟨s2, h, ha, hc⟩

/-! ## The session: the drain read -/

/-- A single message queued when the round starts is removed by the drain. -/
theorem drain_discards_single (env : Env) (s : State) (m : List Nat) (hq : s.queue = [m])
    (ha : env.arrivals s.msgIx = []) :
    (getMessage env s).1 = m ∧ (getMessage env s).2.queue = [] := by
  simp [getMessage, hq, ha]

/-- C12, at the failing input: with two messages queued when the round starts
(a Note-Off for 60, then a Note-On for 62) and nothing arriving afterwards, the
drain removes only the first; the polling loop reads the second, stale message
as the press of the round (target 60, `read_note = 62`), and the round is
scored: `num_asked = 1`, `num_correct = 0`. -/
theorem stale_press_completes_round :
    stale_queue_state.queue = [[0x80, 60, 0], [0x90, 62, 64]] ∧
      (∀ k, quiet_env.arrivals k = []) ∧
      (round_listen channel_one quiet_env 2 stale_queue_state).map
        (fun r => (r.2.1, r.2.2, r.1.queue)) = some (60, 62, []) ∧
      (round_body channel_one quiet_env 2 stale_queue_state).map
        (fun s => (s.num_asked, s.num_correct)) = some (1, 0) :=
  ⟨rfl, fun _ => rfl, by decide, by decide⟩

/-! ## The session: forwarding -/

theorem read_done_sent (env : Env) (s : State) : (read_done env s).2.sent = s.sent := rfl

theorem getMessage_sent (env : Env) (s : State) : (getMessage env s).2.sent = s.sent := by
  unfold getMessage
  split <;> simp

theorem score_sent (s : State) (d : Bool) (p t : Int) : (score s d p t).sent = s.sent := by
  unfold score
  split
  · split <;> simp
  · simp

/-- With forwarding on, one iteration of the polling loop sends the message it
read, when that message is not empty, whatever the classification gives. -/
theorem poll_body_sent (fl : Flags) (env : Env) (s : State) (rn : Int)
    (hf : fl.FLAGS_forward = true) :
    (poll_body fl env s rn).1.sent =
      s.sent ++ (if (getMessage env s).1.length ≠ 0 then [(getMessage env s).1] else []) := by
  by_cases h : (getMessage env s).1.length ≠ 0
  · simp only [poll_body, if_pos h, sendMessage, hf, if_true, getMessage_sent]
  · simp only [poll_body, if_neg h, getMessage_sent, List.append_nil]

/-- With forwarding on, the polling loop sends exactly the non-empty messages
it reads, in order. -/
theorem poll_loop_sent (fl : Flags) (env : Env) (hf : fl.FLAGS_forward = true) :
    ∀ (fuel : Nat) (s : State) (rn : Int) (s1 : State) (rn1 : Int),
      poll_loop fl env fuel s rn = some (s1, rn1) →
      s1.sent = s.sent ++ poll_reads fl env fuel s rn := by
  intro fuel
  induction fuel with
  | zero => intro s rn s1 rn1 h; simp [poll_loop] at h
  | succ n ih =>
    intro s rn s1 rn1 h
    unfold poll_loop at h
    unfold poll_reads
    by_cases hrn : rn ≠ 0
    · rw [if_pos hrn] at h
      rw [if_pos hrn]
      simp only [Option.some.injEq, Prod.mk.injEq] at h
      rw [← h.1, List.append_nil]
    · rw [if_neg hrn] at h
      rw [if_neg hrn]
      by_cases hd : (read_done env s).1 = true
      · simp only [hd, if_true, Option.some.injEq, Prod.mk.injEq] at h
        simp only [hd, if_true]
        rw [← h.1, List.append_nil, read_done_sent]
      · simp only [hd] at h
        simp only [hd]
        rw [ih _ _ _ _ h, poll_body_sent fl env _ rn hf, read_done_sent, List.append_assoc]
        rfl

/-- With forwarding on, a round sends the non-empty messages read by its
polling loop, and nothing else. -/
theorem round_body_sent (fl : Flags) (env : Env) (hf : fl.FLAGS_forward = true)
    (fuel : Nat) (s s1 : State) (h : round_body fl env fuel s = some s1) :
    s1.sent = s.sent ++ round_reads fl env fuel s := by
  unfold round_body round_listen at h
  unfold round_reads
  cases hg : get_random_note env.draws s.drawIx fuel (difficulty_of fl.FLAGS_difficulty) with
  | none => rw [hg] at h; simp at h
  | some r =>
    obtain ⟨note, ix⟩ := r
    rw [hg] at h
    simp only at h
    cases hp : poll_loop fl env fuel (getMessage env { s with drawIx := ix }).2 0 with
    | none => rw [hp] at h; simp at h
    | some q =>
      obtain ⟨s2, rn⟩ := q
      rw [hp] at h
      simp only [Option.some.injEq] at h
      rw [← h, score_sent, read_done_sent, poll_loop_sent fl env hf fuel _ _ _ _ hp,
        getMessage_sent]

/-- C13, at the failing input: with forwarding on, the drain of the first round
(line 211) reads the non-empty message `[0x80, 60, 0]` from the input, and the
polling loop then reads `[0x90, 60, 64]`; after these two reads the run ends
with only the second message sent to the sink: the drained message was read
but never forwarded, so the sequence sent is not the sequence of non-empty
messages read. -/
theorem drained_message_not_forwarded :
    forward_one.FLAGS_forward = true ∧
      (getMessage drain_env { (read_done drain_env initial_state).2 with drawIx := 1 }).1
        = [0x80, 60, 0] ∧
      (main_loop forward_one drain_env 4 initial_state).map (fun s => (s.sent, s.msgIx))
        = some ([[0x90, 60, 64]], 2) := by
  decide

/-- What the session loop does send: with forwarding on, the messages sent
during a run are the non-empty messages read by the polling loops of its
rounds, in order, each sent whether or not it is classified as a press. -/
theorem forwarded_are_polled (fl : Flags) (env : Env) (hf : fl.FLAGS_forward = true) :
    ∀ (fuel : Nat) (s s1 : State), main_loop fl env fuel s = some s1 →
      s1.sent = s.sent ++ main_reads fl env fuel s := by
  intro fuel
  induction fuel with
  | zero => intro s s1 h; simp [main_loop] at h
  | succ n ih =>
    intro s s1 h
    unfold main_loop at h
    unfold main_reads
    by_cases hd : (read_done env s).1 = true
    · simp only [hd, if_true, Option.some.injEq] at h
      simp only [hd, if_true]
      rw [← h, List.append_nil, read_done_sent]
    · simp only [hd] at h
      simp only [hd]
      cases hr : round_body fl env n (read_done env s).2 with
      | none => rw [hr] at h; simp at h
      | some s2 =>
        rw [hr] at h
        simp only at h
        simp only
        rw [ih s2 s1 h, round_body_sent fl env hf n _ s2 hr, read_done_sent,
          List.append_assoc]
        rfl

theorem forwarded_are_polled_witness :
    main_reads forward_one drain_env 4 initial_state = [[0x90, 60, 64]] ∧
      ∃ s1, main_loop forward_one drain_env 4 initial_state = some s1 ∧
        s1.sent = initial_state.sent ++ main_reads forward_one drain_env 4 initial_state := by
  refine ⟨by decide, ?_⟩
  have hs : (main_loop forward_one drain_env 4 initial_state).isSome = true := by decide
  cases h : main_loop forward_one drain_env 4 initial_state with
  | none => rw [h] at hs; exact absurd hs (by decide)
  | some s1 => exact ⟨s1, rfl, forwarded_are_polled forward_one drain_env rfl 4 initial_state s1 h⟩

/-! ## The device prompts -/

/-- An index above the number of listed ports ends the run with exit code 1,
and `openPort` is not called. -/
theorem select_port_above (n port : Nat) (h : n < port) :
    select_port n port = Selection.exit 1 := by
  simp [select_port, h]

/-- The index 0 passes the check, whatever the number of listed ports. -/
theorem select_port_zero (n : Nat) : select_port n 0 = Selection.openPort 4294967295 := by
  have h : ¬ 0 > n := by omega
  simp only [select_port, if_neg h]
  rfl

/-- C14, at the failing input: with 2 ports listed (numbered 1 and 2) the
entered index 0 is outside the listed range, yet the check `port > num_ports`
lets it through and `openPort` is called with `0 - 1 = 4294967295`; this is so
at the input prompt and, with forwarding on, at the output prompt.  The index
3, above the range, ends the run with exit code 1. -/
theorem port_zero_is_opened :
    select_port 2 0 = Selection.openPort 4294967295 ∧
      device_setup false 2 0 2 0 = [Selection.openPort 4294967295] ∧
      device_setup true 2 1 2 0 = [Selection.openPort 0, Selection.openPort 4294967295] ∧
      select_port 2 3 = Selection.exit 1 := by
  decide

/-! ## The accuracy report -/

/-- Up to 42949672 correct answers the product `100 * num_correct` is exact. -/
theorem accuracy_numerator_exact (s : State) (h : s.num_correct ≤ 42949672) :
    (accuracy_division s).numerator = 100 * s.num_correct := by
  unfold accuracy_division U32
  simp only
  omega

/-! ## The namer against the specification -/

/-- On all 88 pitches both tables of the source give, character by character,
the name that the specification describes. -/
theorem name_table_all :
    ∀ p ∈ List.range' 21 88,
      (note_names_solfege.getD (sub32 p 12 % 12) "" ++ String.singleton (subscript p)).data
          = (spec_pitch_name p true).data ∧
        (note_names_english.getD (sub32 p 12 % 12) "" ++ String.singleton (subscript p)).data
          = (spec_pitch_name p false).data := by
  decide

/-- C16: for every pitch `p` in [21,108] and every notation string `s`,
`get_note_name p s` is the entry `(p - 12) mod 12` of the solfege table when
`s = "solfege"` and of the English table for every other `s`, followed by the
subscript digit of `(p - 12) / 12`; so an unknown notation string gives the
same name as `"english"`. -/
theorem get_note_name_matches_spec (p : Nat) (s : String) (h1 : 21 ≤ p) (h2 : p ≤ 108) :
    get_note_name p s = spec_pitch_name p (decide (s = "solfege")) ∧
      (s ≠ "solfege" → get_note_name p s = get_note_name p "english") := by
  have hp : p ∈ List.range' 21 88 := by
    rw [List.mem_range'_1]
    omega
  have ht := name_table_all p hp
  by_cases hs : s = "solfege"
  · refine ⟨?_, fun hne => absurd hs hne⟩
    rw [decide_eq_true hs]
    unfold get_note_name
    rw [if_pos hs]
    exact String.ext ht.1
  · refine ⟨?_, fun _ => ?_⟩
    · rw [decide_eq_false hs]
      unfold get_note_name
      rw [if_neg hs]
      exact String.ext ht.2
    · have he : ¬ ("english" = "solfege") := by decide
      unfold get_note_name
      rw [if_neg hs, if_neg he]

theorem get_note_name_matches_spec_witness :
    (get_note_name 60 "english" = "C" ++ String.singleton (Char.ofNat 0x2084) ∧
      get_note_name 60 "solfege" = "Do" ++ String.singleton (Char.ofNat 0x2084) ∧
      get_note_name 21 "english" = "A" ++ String.singleton (Char.ofNat 0x2080) ∧
      get_note_name 108 "english" = "C" ++ String.singleton (Char.ofNat 0x2088)) ∧
    (get_note_name 60 "german" = spec_pitch_name 60 (decide ("german" = "solfege")) ∧
      ("german" ≠ "solfege" → get_note_name 60 "german" = get_note_name 60 "english")) :=
  ⟨⟨String.ext (by decide), String.ext (by decide), String.ext (by decide),
      String.ext (by decide)⟩,
    get_note_name_matches_spec 60 "german" (by decide) (by decide)⟩


/-! ## The sampler: draws consumed and the Easy transform -/

/-- Started on a black key, the rejection loop redraws until the first white
key, which is `k` draws ahead, and returns it with the index after it. -/
theorem reject_loop_least (draws : Nat → Nat) :
    ∀ (k ix note nl fuel : Nat), black_cond nl = true →
      (∀ j, j < k → black_cond (sub32 (draws (ix + j)) 12 % 12) = true) →
      black_cond (sub32 (draws (ix + k)) 12 % 12) = false → k + 2 ≤ fuel →
      reject_loop draws fuel ix note nl = some (draws (ix + k), ix + k + 1) := by
  intro k
  induction k with
  | zero =>
    intro ix note nl fuel hb _ hw hf
    obtain ⟨f, rfl⟩ : ∃ f, fuel = f + 2 := ⟨fuel - 2, by omega⟩
    rw [Nat.add_zero] at hw
    have hnb : ¬ black_cond (sub32 (draws ix) 12 % 12) = true := by rw [hw]; decide
    simp only [reject_loop, if_pos hb, if_neg hnb, Nat.add_zero]
  | succ n ih =>
    intro ix note nl fuel hb hblack hw hf
    obtain ⟨f, rfl⟩ : ∃ f, fuel = f + 1 := ⟨fuel - 1, by omega⟩
    have h0 : black_cond (sub32 (draws ix) 12 % 12) = true := by
      have := hblack 0 (by omega)
      rwa [Nat.add_zero] at this
    have hw1 : black_cond (sub32 (draws (ix + 1 + n)) 12 % 12) = false := by
      rw [show ix + 1 + n = ix + (n + 1) by omega]
      exact hw
    have hrec := ih (ix + 1) (draws ix) (sub32 (draws ix) 12 % 12) f h0
      (fun j hj => by
        have := hblack (j + 1) (by omega)
        rwa [show ix + (j + 1) = ix + 1 + j by omega] at this)
      hw1 (by omega)
    simp only [reject_loop, if_pos hb]
    rw [hrec, show ix + 1 + n = ix + (n + 1) by omega]

/-- When every draw is a black key the rejection loop, started on a black key,
never returns: it runs out of any fuel. -/
theorem reject_loop_never (draws : Nat → Nat) :
    ∀ (fuel ix note nl : Nat), black_cond nl = true →
      (∀ j, black_cond (sub32 (draws (ix + j)) 12 % 12) = true) →
      reject_loop draws fuel ix note nl = none := by
  intro fuel
  induction fuel with
  | zero => intro ix note nl _ _; rfl
  | succ n ih =>
    intro ix note nl hb hall
    have h0 : black_cond (sub32 (draws ix) 12 % 12) = true := by
      have := hall 0
      rwa [Nat.add_zero] at this
    simp only [reject_loop, if_pos hb]
    exact ih (ix + 1) (draws ix) _ h0 (fun j => by
      have := hall (j + 1)
      rwa [show ix + (j + 1) = ix + 1 + j by omega] at this)

/-- At Medium the sampler returns the first white key among the draws, with the
index after it. -/
theorem get_random_note_med_least (draws : Nat → Nat) (ix k fuel : Nat)
    (hblack : ∀ j, j < k → black_cond (sub32 (draws (ix + j)) 12 % 12) = true)
    (hw : black_cond (sub32 (draws (ix + k)) 12 % 12) = false) (hf : k + 1 ≤ fuel) :
    get_random_note draws ix fuel DIFFICULTY_MED = some (draws (ix + k), ix + k + 1) := by
  have hle : DIFFICULTY_MED ≤ DIFFICULTY_MED := le_refl _
  have hne : ¬ DIFFICULTY_MED = DIFFICULTY_EASY := by decide
  have hloop : reject_loop draws fuel (ix + 1) (draws ix) (sub32 (draws ix) 12 % 12)
      = some (draws (ix + k), ix + k + 1) := by
    cases k with
    | zero =>
      obtain ⟨f, rfl⟩ : ∃ f, fuel = f + 1 := ⟨fuel - 1, by omega⟩
      rw [Nat.add_zero] at hw
      have hnb : ¬ black_cond (sub32 (draws ix) 12 % 12) = true := by rw [hw]; decide
      simp only [reject_loop, if_neg hnb, Nat.add_zero]
    | succ n =>
      have h0 : black_cond (sub32 (draws ix) 12 % 12) = true := by
        have := hblack 0 (by omega)
        rwa [Nat.add_zero] at this
      have hw1 : black_cond (sub32 (draws (ix + 1 + n)) 12 % 12) = false := by
        rw [show ix + 1 + n = ix + (n + 1) by omega]
        exact hw
      have := reject_loop_least draws n (ix + 1) (draws ix) (sub32 (draws ix) 12 % 12) fuel h0
        (fun j hj => by
          have := hblack (j + 1) (by omega)
          rwa [show ix + (j + 1) = ix + 1 + j by omega] at this)
        hw1 (by omega)
      rw [this, show ix + 1 + n = ix + (n + 1) by omega]
  simp only [get_random_note, if_pos hle, hloop, if_neg hne]

/-- Membership of the pitch class in the black-key set, for a draw in range,
in terms of the loop condition of the source. -/
theorem black_cond_of_class (draws : Nat → Nat) (hr : DrawsInRange draws) (i : Nat) :
    (black_cond (sub32 (draws i) 12 % 12) = true ↔ (draws i - 12) % 12 ∈ [1, 3, 6, 8, 10]) := by
  rw [letter_in_range (draws i) (hr i).1 (hr i).2]
  exact black_cond_iff _

/-- C18: for draws in [21,108] read from index `ix`: at Hard the sampler
returns the first draw and has consumed exactly one draw; at Medium, if `k` is
the least offset at which the pitch class is not in {1,3,6,8,10}, the sampler
returns that draw and has consumed exactly `k + 1` draws, once the fuel allows
`k + 1` evaluations of the loop condition; if there is no such offset the
sampler returns for no fuel, the loop does not terminate; and the loop
condition with its mix of `||` and `|` holds exactly for 1, 3, 6, 8, 10. -/
theorem sampler_draws_consumed (draws : Nat → Nat) (ix : Nat) (hr : DrawsInRange draws) :
    (∀ fuel, get_random_note draws ix fuel DIFFICULTY_HARD = some (draws ix, ix + 1)) ∧
      (∀ k, (draws (ix + k) - 12) % 12 ∉ [1, 3, 6, 8, 10] →
        (∀ j, j < k → (draws (ix + j) - 12) % 12 ∈ [1, 3, 6, 8, 10]) →
        ∀ fuel, k + 1 ≤ fuel →
          get_random_note draws ix fuel DIFFICULTY_MED = some (draws (ix + k), ix + k + 1)) ∧
      ((∀ j, (draws (ix + j) - 12) % 12 ∈ [1, 3, 6, 8, 10]) →
        ∀ fuel, get_random_note draws ix fuel DIFFICULTY_MED = none) ∧
      (∀ n, black_cond n = true ↔ n ∈ [1, 3, 6, 8, 10]) := by
  refine ⟨fun fuel => get_random_note_hard draws ix fuel, ?_, ?_, black_cond_iff⟩
  · intro k hw hblack fuel hf
    apply get_random_note_med_least draws ix k fuel
    · intro j hj
      exact (black_cond_of_class draws hr _).mpr (hblack j hj)
    · cases hb : black_cond (sub32 (draws (ix + k)) 12 % 12) with
      | false => rfl
      | true => exact absurd ((black_cond_of_class draws hr _).mp hb) hw
    · exact hf
  · intro hall fuel
    have hle : DIFFICULTY_MED ≤ DIFFICULTY_MED := le_refl _
    have h0 : black_cond (sub32 (draws ix) 12 % 12) = true := by
      have := (black_cond_of_class draws hr (ix + 0)).mpr (hall 0)
      rwa [Nat.add_zero] at this
    have hloop : reject_loop draws fuel (ix + 1) (draws ix) (sub32 (draws ix) 12 % 12)
        = none :=
      reject_loop_never draws fuel (ix + 1) (draws ix) _ h0 (fun j => by
        have := (black_cond_of_class draws hr (ix + (j + 1))).mpr (hall (j + 1))
        rwa [show ix + (j + 1) = ix + 1 + j by omega] at this)
    simp only [get_random_note, if_pos hle, hloop]

theorem sampler_draws_consumed_witness :
    get_random_note sample_draws 0 2 DIFFICULTY_MED = some (60, 2) ∧
      get_random_note sample_draws 0 0 DIFFICULTY_HARD = some (61, 1) :=
  have h := sampler_draws_consumed sample_draws 0 sample_draws_in_range
  ⟨h.2.1 1 (by decide)
      (fun j hj => by
        have hj0 : j = 0 := by omega
        subst hj0
        decide)
      2 (by decide),
    h.1 0⟩

/-- A white pitch class moved to the reference octave is one of the seven
natural pitches of that octave. -/
theorem white_class_in_octave :
    ∀ c, c < 12 → c ∉ [1, 3, 6, 8, 10] → 60 + c ∈ [60, 62, 64, 65, 67, 69, 71] := by
  decide

/-- At Easy the sampler returns the note the rejection loop ends with, moved to
the reference octave. -/
theorem get_random_note_easy_of_loop (draws : Nat → Nat) (ix fuel note ix1 : Nat)
    (hl : reject_loop draws fuel (ix + 1) (draws ix) (sub32 (draws ix) 12 % 12)
      = some (note, ix1)) :
    get_random_note draws ix fuel DIFFICULTY_EASY
      = some ((sub32 note 12 % 12 + 12 + 12 * 4) % U32, ix1) := by
  have hle : DIFFICULTY_EASY ≤ DIFFICULTY_MED := by decide
  unfold get_random_note
  simp only [if_pos hle]
  rw [hl]
  simp only [if_true]

/-- C17: for draws in [21,108] with a white key at offset `k` from `ix`, the
sampler returns at Medium and at Easy on the same draws (fuel `k + 1`), having
consumed the same draws; the Easy result is 60 plus the pitch class of the
Medium result, so it has the same pitch class and lies in
{60, 62, 64, 65, 67, 69, 71}; and each of these seven pitches is an Easy result
(for the draws that are constantly that pitch). -/
theorem easy_is_medium_in_octave_four (draws : Nat → Nat) (ix k : Nat)
    (hr : DrawsInRange draws) (hw : (draws (ix + k) - 12) % 12 ∉ [1, 3, 6, 8, 10]) :
    (∃ pm ix1, get_random_note draws ix (k + 1) DIFFICULTY_MED = some (pm, ix1) ∧
        get_random_note draws ix (k + 1) DIFFICULTY_EASY
          = some (60 + (pm - 12) % 12, ix1) ∧
        (60 + (pm - 12) % 12 - 12) % 12 = (pm - 12) % 12 ∧
        60 + (pm - 12) % 12 ∈ [60, 62, 64, 65, 67, 69, 71]) ∧
      (∀ q ∈ [60, 62, 64, 65, 67, 69, 71],
        get_random_note (fun _ => q) 0 1 DIFFICULTY_EASY = some (q, 1)) := by
  refine ⟨?_, by decide⟩
  have hwb : black_cond (sub32 (draws (ix + k)) 12 % 12) = false := by
    cases hb : black_cond (sub32 (draws (ix + k)) 12 % 12) with
    | false => rfl
    | true => exact absurd ((black_cond_of_class draws hr _).mp hb) hw
  obtain ⟨pm, ix1, hm⟩ := get_random_note_returns draws ix k DIFFICULTY_MED hwb
  obtain ⟨note, hl, hp⟩ :=
    get_random_note_low draws ix (k + 1) DIFFICULTY_MED pm ix1 (Or.inr rfl) hm
  obtain ⟨hwhite, h1, h2⟩ :=
    reject_loop_result draws hr (k + 1) (ix + 1) (draws ix) note ix1 (hr ix).1 (hr ix).2 hl
  have hpm : pm = note := by
    rcases hp with ⟨he, _⟩ | ⟨_, hp⟩
    · exact absurd he (by decide)
    · exact hp
  subst hpm
  have hlt : (pm - 12) % 12 < 12 := Nat.mod_lt _ (by decide)
  have hnb : (pm - 12) % 12 ∉ [1, 3, 6, 8, 10] := by
    intro hmem
    rw [(black_cond_iff _).mpr hmem] at hwhite
    exact Bool.noConfusion hwhite
  have heasy : get_random_note draws ix (k + 1) DIFFICULTY_EASY
      = some (60 + (pm - 12) % 12, ix1) := by
    rw [get_random_note_easy_of_loop draws ix (k + 1) pm ix1 hl, letter_in_range pm h1 h2,
      easy_transform _ hlt, Nat.add_comm]
  exact ⟨pm, ix1, hm, heasy, by omega, white_class_in_octave _ hlt hnb⟩

theorem easy_is_medium_in_octave_four_witness :
    ∃ pm ix1, get_random_note sample_draws 0 2 DIFFICULTY_MED = some (pm, ix1) ∧
      get_random_note sample_draws 0 2 DIFFICULTY_EASY = some (60 + (pm - 12) % 12, ix1) ∧
      (60 + (pm - 12) % 12 - 12) % 12 = (pm - 12) % 12 ∧
      60 + (pm - 12) % 12 ∈ [60, 62, 64, 65, 67, 69, 71] :=
  (easy_is_medium_in_octave_four sample_draws 0 1 sample_draws_in_range (by decide)).1

/-! ## The session: the channel option -/

/-- C20, as stated, fails for channel 0: the expected status is
`0x90 + (0 - 1)` in `uint64_t`, that is `0x8F`, so the 3-byte message
`[0x8F, 60, 64]` (a Note-Off of channel 16, status below `0x90`) is accepted as
a press and ends the polling loop with `read_note = 60`. -/
theorem channel_zero_accepts_note_off :
    expected_status 0 = 0x8F ∧ classify 0 [0x8F, 60, 64] 0 = 60 ∧
      (poll_loop channel_zero note_off_env 2 initial_state 0).map (fun r => r.2) = some 60 ∧
      ¬ (0x90 ≤ [0x8F, 60, 64].getD 0 0) := by
  decide

/-- C20, amended: for every value `c` of the channel option and every message,
the message changes `read_note` (is accepted as a press) only if it has 3
bytes, its status byte equals the expected status `0x90 + (c - 1)` computed in
`uint64_t`, and its velocity is not 0; when `c` is in 1..16 that status byte
lies in `0x90..0x9F`. -/
theorem press_needs_expected_status (c : Nat) (m : List Nat) (rn : Int)
    (h : classify c m rn ≠ rn) :
    m.length = 3 ∧ m.getD 0 0 = expected_status c ∧ m.getD 2 0 ≠ 0 ∧
      expected_status c = (0x90 + (c % 2 ^ 64 + 2 ^ 64 - 1) % 2 ^ 64) % 2 ^ 64 ∧
      (1 ≤ c → c ≤ 16 → 0x90 ≤ m.getD 0 0 ∧ m.getD 0 0 ≤ 0x9F) := by
  have hlen : m.length = 3 := by
    by_contra hl
    exact h (classify_other c m rn (Or.inl hl))
  have hst : m.getD 0 0 = expected_status c := by
    by_contra hs
    exact h (classify_other c m rn (Or.inr (Or.inl hs)))
  have hv : m.getD 2 0 ≠ 0 := by
    intro hz
    exact h (classify_other c m rn (Or.inr (Or.inr hz)))
  refine ⟨hlen, hst, hv, rfl, ?_⟩
  intro h1 h2
  rw [hst, expected_status_channel c h1 h2]
  omega

theorem press_needs_expected_status_witness :
    classify 1 [0x90, 60, 64] 0 ≠ 0 ∧
      ([0x90, 60, 64].length = 3 ∧ [0x90, 60, 64].getD 0 0 = expected_status 1 ∧
        0x90 ≤ [0x90, 60, 64].getD 0 0 ∧ [0x90, 60, 64].getD 0 0 ≤ 0x9F) :=
  have h := press_needs_expected_status 1 [0x90, 60, 64] 0 (by decide)
  ⟨by decide, h.1, h.2.1, h.2.2.2.2 (by decide) (by decide)⟩

/-! ## The session: the counters over a whole run -/

theorem score_miss (s : State) (p t : Int) (h : p ≠ t) :
    (score s false p t).num_asked = inc32 s.num_asked ∧
      (score s false p t).num_correct = s.num_correct := by
  simp [score, h]

/-- A round at difficulty Hard on channel 1 in which the drain finds nothing,
the first poll finds a Note-On for pitch `p` with velocity 64, and the
interrupt is not seen: the round is scored against the target `t`. -/
theorem press_round (fl : Flags) (env : Env) (c t p g : Nat) (s : State)
    (hdiff : fl.FLAGS_difficulty = "hard") (hch : fl.FLAGS_channel = 1)
    (hca : env.cancelAt = some c) (hlate : s.doneIx + 1 < c) (hq : s.queue = [])
    (ha0 : env.arrivals s.msgIx = []) (ha1 : env.arrivals (s.msgIx + 1) = [[0x90, p, 64]])
    (hp : p ≠ 0) (hdraw : env.draws s.drawIx = t) (ht : t < 2 ^ 31) :
    ∃ s1, round_body fl env (g + 2) s = some s1 ∧ s1.queue = [] ∧
      s1.msgIx = s.msgIx + 2 ∧ s1.doneIx = s.doneIx + 2 ∧
      s1.num_asked = inc32 s.num_asked ∧
      s1.num_correct = (if p = t then inc32 s.num_correct else s.num_correct) := by
  have hdf : difficulty_of fl.FLAGS_difficulty = DIFFICULTY_HARD := by rw [hdiff]; decide
  have hsample : get_random_note env.draws s.drawIx (g + 2)
      (difficulty_of fl.FLAGS_difficulty) = some (t, s.drawIx + 1) := by
    rw [hdf, get_random_note_hard, hdraw]
  -- the drain read
  obtain ⟨sB, hsB⟩ : ∃ sB, sB = (getMessage env { s with drawIx := s.drawIx + 1 }).2 :=
    ⟨_, rfl⟩
  have hBf := getMessage_frame env { s with drawIx := s.drawIx + 1 }
  have hBc := getMessage_counters env { s with drawIx := s.drawIx + 1 }
  have hBq : sB.queue = [] := by
    rw [hsB, getMessage_empty env { s with drawIx := s.drawIx + 1 } hq ha0]
  rw [← hsB] at hBf hBc
  simp only at hBf hBc
  -- the poll that reads the press
  have hd1 : (read_done env sB).1 = false := by
    rw [read_done_fst env sB c hca, hBf.1]; simp; omega
  have hm := getMessage_single env (read_done env sB).2 [0x90, p, 64] hBq
    (by rw [read_done_snd]; simp only [hBf.2.1]; exact ha1)
  obtain ⟨sD, hsD⟩ : ∃ sD, sD = (poll_body fl env (read_done env sB).2 0).1 := ⟨_, rfl⟩
  have hDf := poll_body_frame fl env (read_done env sB).2 0
  have hDc := poll_body_counters fl env (read_done env sB).2 0
  rw [← hsD, hm.2] at hDf
  rw [← hsD] at hDc
  simp only [read_done_snd, hBf, hBc] at hDf hDc
  have hpoll : poll_loop fl env (g + 2) sB 0 = some (sD, (p : Int)) := by
    rw [hsD]
    exact poll_loop_press fl env g sB 1 p 64 (by decide) (by decide) hch hp (by decide)
      hd1 hm.1
  have hlisten := round_listen_eq fl env (g + 2) s sD t (s.drawIx + 1) (p : Int) hsample
    (by rw [← hsB]; exact hpoll)
  -- scoring
  have hd3 : (read_done env sD).1 = false := by
    rw [read_done_fst env sD c hca, hDf.1]; simp; omega
  have hti : to_int32 t = (t : Int) := to_int32_small t ht
  have hsf := score_frame (read_done env sD).2 false (p : Int) (t : Int)
  have hrc := read_done_counters env sD
  refine ⟨score (read_done env sD).2 false (p : Int) (t : Int), ?_, ?_, ?_, ?_, ?_, ?_⟩
  · simp only [round_body, hlisten, hd3, hti]
  · rw [hsf.2.2.2, read_done_snd]; exact hDf.2.2.2
  · rw [hsf.2.1, read_done_snd]; simp only [hDf.2.1]
  · rw [hsf.1, read_done_snd]; simp only [hDf.1]
  · by_cases hpt : p = t
    · subst hpt
      rw [(score_hit (read_done env sD).2 (p : Int)).1, hrc.1, hDc.1]
    · have hne : (p : Int) ≠ (t : Int) := by exact_mod_cast hpt
      rw [(score_miss (read_done env sD).2 (p : Int) (t : Int) hne).1, hrc.1, hDc.1]
  · by_cases hpt : p = t
    · subst hpt
      rw [(score_hit (read_done env sD).2 (p : Int)).2, hrc.2, hDc.2, if_pos rfl]
    · have hne : (p : Int) ≠ (t : Int) := by exact_mod_cast hpt
      rw [(score_miss (read_done env sD).2 (p : Int) (t : Int) hne).2, hrc.2, hDc.2,
        if_neg hpt]

theorem round_trip_even (wf : Bool) (R r : Nat) :
    (round_trip_env wf R).arrivals (2 * r) = [] := by
  have h : ¬ (2 * r % 2 = 1) := by omega
  simp only [round_trip_env, if_neg h]

theorem round_trip_odd (wf : Bool) (R r : Nat) :
    (round_trip_env wf R).arrivals (2 * r + 1)
      = [[0x90, pressed_pitch wf (2 * r + 1), 64]] := by
  have h : (2 * r + 1) % 2 = 1 := by omega
  simp only [round_trip_env, if_pos h]

theorem pressed_pitch_ne_zero (wf : Bool) (k : Nat) : pressed_pitch wf k ≠ 0 := by
  unfold pressed_pitch
  split <;> decide

/-- A run of `round_trip_env`: from the state after `r` rounds, with `n` rounds
to go, the session loop ends with the counters of `r + n` rounds, reduced
modulo `2 ^ 32`. -/
theorem rounds_run (wf : Bool) (R : Nat) :
    ∀ (n r : Nat) (s : State), r + n = R → s.queue = [] → s.msgIx = 2 * r →
      s.doneIx = 3 * r → s.num_asked = r % U32 → s.num_correct = correct_after wf r % U32 →
      ∃ s1, main_loop channel_one (round_trip_env wf R) (n + 3) s = some s1 ∧
        s1.num_asked = R % U32 ∧ s1.num_correct = correct_after wf R % U32 := by
  intro n
  induction n with
  | zero =>
    intro r s hr _ _ hd ha hc
    have hrR : r = R := by omega
    subst hrR
    have hdone : (read_done (round_trip_env wf r) s).1 = true :=
      read_done_true_of_lt _ s (3 * r) rfl (by omega)
    refine ⟨_, main_loop_cancelled channel_one _ 2 s hdone, ?_, ?_⟩
    · rw [(read_done_counters _ s).1, ha]
    · rw [(read_done_counters _ s).2, hc]
  | succ n ih =>
    intro r s hr hq hm hd ha hc
    have hd0 : (read_done (round_trip_env wf R) s).1 = false := by
      rw [read_done_fst _ s (3 * R) rfl, hd]; simp; omega
    have harr0 : (round_trip_env wf R).arrivals (read_done (round_trip_env wf R) s).2.msgIx
        = [] := by
      rw [read_done_snd]; simp only [hm]; exact round_trip_even wf R r
    have harr1 : (round_trip_env wf R).arrivals
        ((read_done (round_trip_env wf R) s).2.msgIx + 1)
        = [[0x90, pressed_pitch wf (2 * r + 1), 64]] := by
      rw [read_done_snd]; simp only [hm]; exact round_trip_odd wf R r
    obtain ⟨s1, hbody, h1q, h1m, h1d, h1a, h1c⟩ :=
      press_round channel_one (round_trip_env wf R) (3 * R) 60 (pressed_pitch wf (2 * r + 1))
        (n + 1) (read_done (round_trip_env wf R) s).2 rfl rfl rfl
        (by rw [read_done_snd]; simp only [hd]; omega)
        (by rw [read_done_snd]; exact hq) harr0 harr1 (pressed_pitch_ne_zero wf _) rfl
        (by decide)
    rw [read_done_snd] at h1m h1d h1a h1c
    simp only at h1m h1d h1a h1c
    have hstep : main_loop channel_one (round_trip_env wf R) (n + 1 + 3) s
        = main_loop channel_one (round_trip_env wf R) (n + 3) s1 :=
      main_loop_round channel_one (round_trip_env wf R) (n + 3) s s1 hd0 hbody
    have ha1 : s1.num_asked = (r + 1) % U32 := by
      rw [h1a, ha]
      unfold inc32 U32
      omega
    have hc1 : s1.num_correct = correct_after wf (r + 1) % U32 := by
      rw [h1c, hc]
      cases wf with
      | false =>
        have hp : pressed_pitch false (2 * r + 1) = 60 := by simp [pressed_pitch]
        rw [hp, if_pos rfl]
        unfold correct_after inc32 U32
        simp only [Bool.false_eq_true, if_false]
        omega
      | true =>
        by_cases hr0 : r = 0
        · subst hr0
          decide
        · have h60 : ¬ (true = true ∧ 2 * r + 1 = 1) := by omega
          have hp : pressed_pitch true (2 * r + 1) = 60 := by
            unfold pressed_pitch
            rw [if_neg h60]
          rw [hp, if_pos rfl]
          unfold correct_after inc32 U32
          simp only [if_true]
          omega
    obtain ⟨s2, h2, h2a, h2c⟩ := ih (r + 1) s1 (by omega) h1q (by omega) (by omega) ha1 hc1
    exact ⟨s2, by rw [hstep]; exact h2, h2a, h2c⟩

/-- C19, as stated, fails once `num_asked` has wrapped: in the run of
`round_trip_env` with 4294967296 rounds, of which only the first is answered
wrongly, the session loop ends, starting from both counters at 0, with
`num_asked = 0` and `num_correct = 4294967295`, so `num_correct ≤ num_asked`
does not hold in that state. -/
theorem correct_exceeds_asked_after_wrap :
    ∃ s1, main_loop channel_one (round_trip_env true 4294967296) (4294967296 + 3)
        initial_state = some s1 ∧
      s1.num_asked = 0 ∧ s1.num_correct = 4294967295 ∧ ¬ (s1.num_correct ≤ s1.num_asked) := by
  obtain ⟨s1, h, ha, hc⟩ := rounds_run true 4294967296 4294967296 0 initial_state
    (by decide) rfl rfl rfl (by decide) (by decide)
  have ha0 : s1.num_asked = 0 := by rw [ha]; decide
  have hc0 : s1.num_correct = 4294967295 := by rw [hc]; decide
  exact ⟨s1, h, ha0, hc0, by rw [ha0, hc0]; decide⟩

/-- A round that returns needs fuel: with none the polling loop, or already
the sampler, gives up. -/
theorem round_body_zero (fl : Flags) (env : Env) (s : State) :
    round_body fl env 0 s = none := by
  unfold round_body round_listen
  cases get_random_note env.draws s.drawIx 0 (difficulty_of fl.FLAGS_difficulty) with
  | none => rfl
  | some r => rfl

/-- One round keeps `num_correct ≤ num_asked` and adds at most 1 to
`num_asked`, as long as `num_asked` is below its maximum. -/
theorem round_body_counters (fl : Flags) (env : Env) (fuel : Nat) (s s1 : State)
    (h : round_body fl env fuel s = some s1) (ha : s.num_asked + 1 < U32)
    (hc : s.num_correct ≤ s.num_asked) :
    s1.num_correct ≤ s1.num_asked ∧ s.num_asked ≤ s1.num_asked ∧
      s1.num_asked ≤ s.num_asked + 1 := by
  unfold round_body at h
  cases hl : round_listen fl env fuel s with
  | none => rw [hl] at h; simp at h
  | some r =>
    obtain ⟨s2, t, p⟩ := r
    rw [hl] at h
    simp only [Option.some.injEq] at h
    have hk := round_listen_counters fl env fuel s s2 t p hl
    have hr := read_done_counters env s2
    have hca : (read_done env s2).2.num_asked = s.num_asked := hr.1.trans hk.1
    have hcc : (read_done env s2).2.num_correct = s.num_correct := hr.2.trans hk.2
    have hcs : s.num_correct + 1 < U32 := by omega
    rw [← h]
    by_cases hd : (read_done env s2).1 = true
    · rw [hd]
      simp only [score, Bool.not_true, Bool.false_eq_true, if_false, hca, hcc]
      omega
    · have hd2 : (read_done env s2).1 = false := by simpa using hd
      rw [hd2]
      by_cases hpt : p = t
      · rw [hpt, (score_hit _ t).1, (score_hit _ t).2, hca, hcc, inc32_small _ ha,
          inc32_small _ hcs]
        omega
      · rw [(score_miss _ p t hpt).1, (score_miss _ p t hpt).2, hca, hcc, inc32_small _ ha]
        omega

/-- Over a run of the session loop that ends, `num_correct ≤ num_asked` is
kept and `num_asked` grows by at most the number of rounds, as long as the
rounds do not take `num_asked` to `2 ^ 32`. -/
theorem main_loop_invariant (fl : Flags) (env : Env) :
    ∀ (fuel : Nat) (s s1 : State), main_loop fl env fuel s = some s1 →
      s.num_asked + main_rounds fl env fuel s < U32 → s.num_correct ≤ s.num_asked →
      s1.num_correct ≤ s1.num_asked ∧ s.num_asked ≤ s1.num_asked ∧
        s1.num_asked ≤ s.num_asked + main_rounds fl env fuel s := by
  intro fuel
  induction fuel with
  | zero => intro s s1 h; simp [main_loop] at h
  | succ n ih =>
    intro s s1 h hb hc
    unfold main_loop at h
    by_cases hd : (read_done env s).1 = true
    · have hmr : main_rounds fl env (n + 1) s = 0 := by simp [main_rounds, hd]
      simp only [hd, if_true, Option.some.injEq] at h
      rw [hmr, ← h, (read_done_counters env s).1, (read_done_counters env s).2]
      omega
    · simp only [hd] at h
      cases hr : round_body fl env n (read_done env s).2 with
      | none => rw [hr] at h; simp at h
      | some s2 =>
        have hmr : main_rounds fl env (n + 1) s = 1 + main_rounds fl env n s2 := by
          simp [main_rounds, hd, hr]
        rw [hr] at h
        simp only at h
        rw [hmr] at hb ⊢
        have hra := (read_done_counters env s).1
        have hrc := (read_done_counters env s).2
        obtain ⟨h2c, h2lo, h2hi⟩ := round_body_counters fl env n (read_done env s).2 s2 hr
          (by rw [hra]; omega) (by rw [hra, hrc]; exact hc)
        rw [hra] at h2lo h2hi
        obtain ⟨h3c, h3lo, h3hi⟩ := ih s2 s1 h (by omega) h2c
        exact ⟨h3c, by omega, by omega⟩

/-- C19, amended: in every state in which the session loop ends, started with
both counters at 0, for every flags, draws, messages and interrupt, and with
fewer than `2 ^ 32` rounds run, `num_correct ≤ num_asked` and `num_asked` is at
most the number of rounds, so the exact ratio `100 * num_correct / num_asked`,
when `num_asked` is not 0, lies between 0 and 100. -/
theorem correct_le_asked (fl : Flags) (env : Env) (fuel : Nat) (s s1 : State)
    (h0 : s.num_asked = 0) (h0c : s.num_correct = 0)
    (hb : main_rounds fl env fuel s < U32)
    (h : main_loop fl env fuel s = some s1) :
    s1.num_correct ≤ s1.num_asked ∧ s1.num_asked ≤ main_rounds fl env fuel s ∧
      100 * s1.num_correct ≤ 100 * s1.num_asked := by
  obtain ⟨hc, _, hhi⟩ := main_loop_invariant fl env fuel s s1 h (by rw [h0]; omega)
    (by rw [h0, h0c])
  rw [h0] at hhi
  exact ⟨hc, by omega, by omega⟩

theorem correct_le_asked_witness :
    main_rounds channel_one script_env 7 initial_state = 2 ∧
      ∃ s1, main_loop channel_one script_env 7 initial_state = some s1 ∧
        s1.num_correct ≤ s1.num_asked ∧ s1.num_asked ≤ 2 := by
  have hm : main_rounds channel_one script_env 7 initial_state = 2 := by decide
  refine ⟨hm, ?_⟩
  have hs : (main_loop channel_one script_env 7 initial_state).isSome = true := by decide
  cases h : main_loop channel_one script_env 7 initial_state with
  | none => rw [h] at hs; exact absurd hs (by decide)
  | some s1 =>
    have hw := correct_le_asked channel_one script_env 7 initial_state s1 rfl rfl
      (by rw [hm]; decide) h
    exact ⟨s1, rfl, hw.1, by rw [← hm]; exact hw.2.1⟩

/-- C15, at the failing input: in the run of `round_trip_env` with 42949673
rounds, all answered correctly, the session loop ends, starting from both
counters at 0, with `num_asked = num_correct = 42949673` (below `2 ^ 32`, and
`num_correct ≤ num_asked`), and the numerator of the division of the report is
`(100 * 42949673) mod 2 ^ 32 = 4`, not the true product 4294967300: the report
divides 4 by 42949673. -/
theorem accuracy_numerator_wraps :
    (∃ s1, main_loop channel_one (round_trip_env false 42949673) (42949673 + 3)
        initial_state = some s1 ∧
      s1.num_asked = 42949673 ∧ s1.num_correct = 42949673 ∧
      accuracy_division s1 = { numerator := 4, denominator := 42949673 }) ∧
    100 * 42949673 = 4294967300 ∧ 42949673 < U32 := by
  refine ⟨?_, by decide, by decide⟩
  obtain ⟨s1, h, ha, hc⟩ := rounds_run false 42949673 42949673 0 initial_state
    (by decide) rfl rfl rfl (by decide) (by decide)
  have ha0 : s1.num_asked = 42949673 := by rw [ha]; decide
  have hc0 : s1.num_correct = 42949673 := by rw [hc]; decide
  refine ⟨s1, h, ha0, hc0, ?_⟩
  simp only [accuracy_division, ha0, hc0]
  decide

/-- The counter value of `asked_at_max` is reached by a run of the session
loop from both counters at 0: 4294967295 rounds, all answered correctly. -/
theorem asked_at_max_reachable :
    ∃ s1, main_loop channel_one (round_trip_env false 4294967295) (4294967295 + 3)
        initial_state = some s1 ∧
      s1.num_asked = asked_at_max.num_asked := by
  obtain ⟨s1, h, ha, _⟩ := rounds_run false 4294967295 4294967295 0 initial_state
    (by decide) rfl rfl rfl (by decide) (by decide)
  exact ⟨s1, h, by rw [ha]; decide⟩

end NotesTutor
